import Mathlib

/-!
Verification development for the JAKE competitive-analysis repository.

The definitions below are shallow embeddings of the TypeScript source:
pure functions become Lean functions, the orchestration pipeline becomes
an explicit sequence of fallible operations over an analysis-record state,
and JavaScript truthiness on nullable fields is modelled with `Option`
plus explicit emptiness checks where the source branches on truthiness.
-/

/-- JavaScript `Math.round`: round half toward positive infinity. -/
def jsRound (x : ℚ) : ℤ := ⌊x + 1/2⌋

/-- Truthiness of a nullable string (`null` and the empty string are falsy). -/
def jsTruthy : Option String → Bool
  | none => false
  | some s => s != ""

/-- The `value || null` coercion applied to nullable strings. -/
def jsOrNull : Option String → Option String
  | some s => if s = "" then none else some s
  | x => x

/-- The `value || null` coercion applied to nullable numbers (`0` becomes `null`). -/
def jsOrNullNat : Option ℕ → Option ℕ
  | some 0 => none
  | x => x

/-- The `a || b` fallback between two nullable strings. -/
def jsOrOpt : Option String → Option String → Option String
  | some s, b => if s = "" then b else some s
  | none, b => b

/-- Pipeline status values stored on an analysis record. -/
inductive Status where
  | pending
  | collecting
  | analyzing
  | completed
  | failed
deriving DecidableEq, Repr

/-- Threat-level buckets derived from the competitive score. -/
inductive ThreatLevel where
  | low
  | medium
  | high
deriving DecidableEq, Repr

/-- `getThreatLevel` from `analysisService`: thresholds at 75 and 50. -/
def getThreatLevel (score : ℤ) : ThreatLevel :=
  if score ≥ 75 then .high
  else if score ≥ 50 then .medium
  else .low

/-- The four inputs of `calculateCompetitiveScore`, as stored on the
in-flight competitor object: `seoScore` (number), `googleRating`
(stringified number, parsed back with `parseFloat`), `googleReviewCount`
(number) and `url` (nullable string). -/
structure CompetitorData where
  seoScore : Option ℚ
  googleRating : Option ℚ
  googleReviewCount : Option ℚ
  url : Option String
deriving DecidableEq

/-- `calculateCompetitiveScore` from `analysisService`, translated branch by
branch; the `if (competitor.field)` guards are JavaScript truthiness tests,
so a numeric `0` is treated as absent (its contribution is 0 either way)
and any non-empty rating string is parsed and used. -/
def calculateCompetitiveScore (c : CompetitorData) : ℤ :=
  let score : ℚ := 50
  let score := score +
    (match c.seoScore with
     | some v => if v ≠ 0 then min (v / 2) 25 else 0
     | none => 0)
  let score := score +
    (match c.googleRating with
     | some r => (r - 3) * 10
     | none => 0)
  let score := score +
    (match c.googleReviewCount with
     | some n => if n ≠ 0 then min (n / 10) 15 else 0
     | none => 0)
  let score := score + (if jsTruthy c.url then 5 else 0)
  max 0 (min 100 (jsRound score))

/-- Modelled from the spec text of the claim: the competitive score as the
clamped, rounded sum `50 + min(seo/2,25) + (rating-3)*10 + min(reviews/10,15)
+ 5·website`, each contribution 0 when its input is absent. -/
def specCompetitiveScore (seo rating reviews : Option ℚ) (hasWebsite : Bool) : ℤ :=
  let q : ℚ :=
    50 + (seo.elim 0 (fun s => min (s / 2) 25))
      + (rating.elim 0 (fun r => (r - 3) * 10))
      + (reviews.elim 0 (fun n => min (n / 10) 15))
      + (if hasWebsite then 5 else 0)
  max 0 (min 100 (jsRound q))

lemma guarded_min_half (v : ℚ) : (if v ≠ 0 then min (v / 2) 25 else 0) = min (v / 2) 25 := by
  split
  · rfl
  · simp_all

lemma guarded_min_tenth (n : ℚ) : (if n ≠ 0 then min (n / 10) 15 else 0) = min (n / 10) 15 := by
  split
  · rfl
  · simp_all

theorem calculateCompetitiveScore_eq_spec (c : CompetitorData) :
    calculateCompetitiveScore c =
      specCompetitiveScore c.seoScore c.googleRating c.googleReviewCount (jsTruthy c.url) := by
  unfold calculateCompetitiveScore specCompetitiveScore
  rcases c with ⟨seo, rating, reviews, url⟩
  rcases seo with _ | v <;> rcases rating with _ | r <;> rcases reviews with _ | n <;>
    simp only [Option.elim, guarded_min_half, guarded_min_tenth]

/-- The metadata extracted by `analyzeSEO` from a fetched page, over which
`calculateSEOScore` is computed (the `score` field of the source result is
always `calculateSEOScore` of the other fields, including the
fetch-failure case where everything is empty and the score is 0). -/
structure SEOResult where
  metaTitle : Option String
  metaDescription : Option String
  h1 : List String
  h2 : List String
  h3 : List String
  wordCount : ℕ
  topKeywords : List String
deriving DecidableEq

/-- `calculateSEOScore` from `seoService`, translated branch by branch;
`if (result.metaTitle)` is a truthiness test, so an empty string scores 0. -/
def calculateSEOScore (r : SEOResult) : ℕ :=
  min 100
    ((match r.metaTitle with
      | some t =>
        if t ≠ "" then
          10 + (if 30 ≤ t.length ∧ t.length ≤ 60 then 10
                else if 0 < t.length then 5 else 0)
        else 0
      | none => 0)
     + (match r.metaDescription with
        | some d =>
          if d ≠ "" then
            10 + (if 120 ≤ d.length ∧ d.length ≤ 160 then 10
                  else if 0 < d.length then 5 else 0)
          else 0
        | none => 0)
     + (if r.h1.length = 1 then 15 else if 0 < r.h1.length then 8 else 0)
     + (if 2 ≤ r.h2.length then 15 else if 0 < r.h2.length then 8 else 0)
     + (if 1000 ≤ r.wordCount then 20
        else if 500 ≤ r.wordCount then 15
        else if 300 ≤ r.wordCount then 10
        else if 0 < r.wordCount then 5 else 0)
     + (if 8 ≤ r.topKeywords.length then 10
        else if 5 ≤ r.topKeywords.length then 7
        else if 0 < r.topKeywords.length then 3 else 0))

/-- Modelled from the spec wording: the title check of the six-check sum
(20 points when present and well sized, 15 when present but not, 0 absent). -/
def titleCheckPoints (r : SEOResult) : ℕ :=
  match r.metaTitle with
  | some t =>
    if t ≠ "" then (if 30 ≤ t.length ∧ t.length ≤ 60 then 20 else 15) else 0
  | none => 0

/-- Modelled from the spec wording: the description check of the six-check sum. -/
def descriptionCheckPoints (r : SEOResult) : ℕ :=
  match r.metaDescription with
  | some d =>
    if d ≠ "" then (if 120 ≤ d.length ∧ d.length ≤ 160 then 20 else 15) else 0
  | none => 0

/-- Modelled from the spec wording: the exactly-one-H1 check of the six-check sum. -/
def h1CheckPoints (r : SEOResult) : ℕ :=
  if r.h1.length = 1 then 15 else if 0 < r.h1.length then 8 else 0

/-- Modelled from the spec wording: the at-least-two-H2s check of the six-check sum. -/
def h2CheckPoints (r : SEOResult) : ℕ :=
  if 2 ≤ r.h2.length then 15 else if 0 < r.h2.length then 8 else 0

/-- Modelled from the spec wording: the word-count tiers of the six-check sum
(thresholds 300, 500, 1000). -/
def contentCheckPoints (r : SEOResult) : ℕ :=
  if 1000 ≤ r.wordCount then 20
  else if 500 ≤ r.wordCount then 15
  else if 300 ≤ r.wordCount then 10
  else if 0 < r.wordCount then 5 else 0

/-- Modelled from the spec wording: the keyword-diversity check of the
six-check sum (up to 10 points). -/
def keywordCheckPoints (r : SEOResult) : ℕ :=
  if 8 ≤ r.topKeywords.length then 10
  else if 5 ≤ r.topKeywords.length then 7
  else if 0 < r.topKeywords.length then 3 else 0

lemma length_pos_of_ne_empty (s : String) (h : s ≠ "") : 0 < s.length := by
  rcases s with ⟨l⟩
  cases l with
  | nil => exact absurd rfl h
  | cons c cs => simp [String.length]

lemma titleComponent_eq (r : SEOResult) :
    (match r.metaTitle with
     | some t =>
       if t ≠ "" then
         10 + (if 30 ≤ t.length ∧ t.length ≤ 60 then 10
               else if 0 < t.length then 5 else 0)
       else 0
     | none => 0) = titleCheckPoints r := by
  unfold titleCheckPoints
  rcases r.metaTitle with _ | t
  · rfl
  · rcases eq_or_ne t "" with ht | ht
    · simp [ht]
    · have hlen : 0 < t.length := length_pos_of_ne_empty t ht
      by_cases hin : 30 ≤ t.length ∧ t.length ≤ 60 <;> simp [ht, hin, hlen]

lemma descriptionComponent_eq (r : SEOResult) :
    (match r.metaDescription with
     | some d =>
       if d ≠ "" then
         10 + (if 120 ≤ d.length ∧ d.length ≤ 160 then 10
               else if 0 < d.length then 5 else 0)
       else 0
     | none => 0) = descriptionCheckPoints r := by
  unfold descriptionCheckPoints
  rcases r.metaDescription with _ | d
  · rfl
  · rcases eq_or_ne d "" with hd | hd
    · simp [hd]
    · have hlen : 0 < d.length := length_pos_of_ne_empty d hd
      by_cases hin : 120 ≤ d.length ∧ d.length ≤ 160 <;> simp [hd, hin, hlen]

lemma calculateSEOScore_six_checks (r : SEOResult) :
    calculateSEOScore r =
      min 100 (titleCheckPoints r + descriptionCheckPoints r + h1CheckPoints r +
        h2CheckPoints r + contentCheckPoints r + keywordCheckPoints r) := by
  unfold calculateSEOScore
  rw [titleComponent_eq, descriptionComponent_eq]
  rfl

/-- The stop-word list of `extractTopKeywords` in `seoService`. -/
def stopWords : List String :=
  ["the", "and", "for", "are", "but", "not", "you", "all", "can", "had",
   "her", "was", "one", "our", "out", "has", "have", "been", "would", "could",
   "their", "will", "when", "who", "get", "which", "make", "more", "some",
   "them", "than", "then", "what", "your", "with", "this", "that", "from",
   "they", "were", "said", "each", "she", "how", "about", "into", "just"]

/-- `String.prototype.toLowerCase` restricted to the ASCII range the
source compares against. -/
def lowerStr (s : String) : String := (s.data.map Char.toLower).asString

/-- `word.toLowerCase().replace(/[^a-z]/g, "")`: lowercase and keep only
the letters a-z. -/
def cleanWord (w : String) : String :=
  ((lowerStr w).data.filter (fun c => ('a' ≤ c) && (c ≤ 'z'))).asString

/-- One step of the word-frequency map of `extractTopKeywords`: bump the
count of `w`, preserving first-insertion order (JavaScript object keys). -/
def bumpCount (w : String) : List (String × ℕ) → List (String × ℕ)
  | [] => [(w, 1)]
  | (x, n) :: rest => if x = w then (x, n + 1) :: rest else (x, n) :: bumpCount w rest

/-- The word-frequency map of `extractTopKeywords`, in insertion order. -/
def tally (ws : List String) : List (String × ℕ) :=
  ws.foldl (fun acc w => bumpCount w acc) []

/-- Stable insertion for the descending-by-count sort
(`.sort((a, b) => b[1] - a[1])`, a stable sort in the runtime). -/
def insertDesc (p : String × ℕ) : List (String × ℕ) → List (String × ℕ)
  | [] => [p]
  | q :: rest => if q.2 > p.2 then q :: insertDesc p rest else p :: q :: rest

/-- Stable sort, descending by count. -/
def sortDesc : List (String × ℕ) → List (String × ℕ)
  | [] => []
  | p :: rest => insertDesc p (sortDesc rest)

/-- `extractTopKeywords` from `seoService`: clean each word, keep those
longer than 3 characters that are not stop words, count occurrences,
sort by frequency descending and take the top 10 words. -/
def extractTopKeywords (words : List String) : List String :=
  let kept := (words.map cleanWord).filter
    (fun w => (3 < w.length) && !(stopWords.contains w))
  ((sortDesc (tally kept)).take 10).map Prod.fst

/-- A string of `n` identical letters (used for concrete pages below). -/
def strOfLen (n : ℕ) : String := (List.replicate n 'a').asString

lemma strOfLen_length (n : ℕ) : (strOfLen n).length = n := by
  simp [strOfLen]

/-- The body-word list of a degenerate 1200-word page: the word `the`
repeated. Every word has more than 2 characters, so `analyzeSEO` counts
all 1200 of them in `wordCount`. -/
def degeneratePageWords : List String := List.replicate 1200 "the"

lemma cleanWord_the : cleanWord "the" = "the" := by decide

lemma degenerate_keywords_empty : extractTopKeywords degeneratePageWords = [] := by
  unfold extractTopKeywords degeneratePageWords
  rw [List.map_replicate, cleanWord_the]
  have hkeep : ((3 < "the".length) && !(stopWords.contains "the")) = false := by decide
  have hfilter :
      (List.replicate 1200 "the").filter
        (fun w => (3 < w.length) && !(stopWords.contains w)) = [] := by
    rw [List.filter_replicate, hkeep]
    rfl
  rw [hfilter]
  rfl

/-- `String.prototype.includes`: `hay` contains `needle` as a contiguous
substring (true for the empty needle). -/
def strContainsSeq (needle : List Char) : List Char → Bool
  | [] => needle.isPrefixOf []
  | c :: rest => needle.isPrefixOf (c :: rest) || strContainsSeq needle rest

/-- `hay.includes(needle)` on strings. -/
def jsIncludes (hay needle : String) : Bool := strContainsSeq needle.data hay.data

/-- One raw result of the Places text search consumed by
`searchNearbyPlaces` (the fields the filter logic reads). -/
structure Place where
  name : String
  placeId : String
  rating : Option ℚ := none
  reviewCount : Option ℕ := none
deriving DecidableEq

/-- The directory block-list of `isLargeDirectory` in the competitor
discovery code. -/
def directoryNames : List String :=
  ["yelp", "angi", "angie\x27s list", "thumbtack", "homeadvisor",
   "yellowpages", "yellow pages", "bbb", "better business bureau",
   "google", "facebook", "linkedin", "instagram"]

/-- `isLargeDirectory`: the lower-cased name contains one of the fixed
directory or aggregator brand names. -/
def isLargeDirectory (name : String) : Bool :=
  directoryNames.any (fun dir => jsIncludes (lowerStr name) dir)

/-- The self-match test of `searchNearbyPlaces`: a case-insensitive
substring match between the candidate name and the target business name,
in either direction. -/
def isSelfMatch (excludeNameLower : String) (name : String) : Bool :=
  jsIncludes (lowerStr name) excludeNameLower || jsIncludes excludeNameLower (lowerStr name)

/-- A candidate survives the discovery filter when it is neither a
self-match nor a known directory. -/
def keepPlace (excludeNameLower : String) (p : Place) : Bool :=
  !(isSelfMatch excludeNameLower p.name) && !(isLargeDirectory p.name)

/-- The result-accumulation loop of `searchNearbyPlaces`: skip self-matches
and directories, push survivors, and break once 5 competitors are kept.
`n` is the number of competitors already pushed. -/
def searchLoop (excludeNameLower : String) : List Place → ℕ → List Place
  | [], _ => []
  | p :: rest, n =>
    if isSelfMatch excludeNameLower p.name then searchLoop excludeNameLower rest n
    else if isLargeDirectory p.name then searchLoop excludeNameLower rest n
    else if 5 ≤ n + 1 then [p]
    else p :: searchLoop excludeNameLower rest (n + 1)

/-- `searchNearbyPlaces` (its pure filtering core): given the raw Places
results in search order and the target business name, produce the filtered
competitor list. -/
def searchNearbyPlaces (excludeBusinessName : String) (results : List Place) : List Place :=
  searchLoop (lowerStr excludeBusinessName) results 0

/-- `discoverCompetitors`: geocode first (an absent geocode yields the
empty list), then run the nearby-places search and filter. -/
def discoverCompetitors (geocode : Option (ℚ × ℚ)) (businessName : String)
    (results : List Place) : List Place :=
  match geocode with
  | none => []
  | some _ => searchNearbyPlaces businessName results

lemma searchLoop_filter_take (ex : String) (results : List Place) :
    ∀ n, n ≤ 4 →
      searchLoop ex results n = (results.filter (keepPlace ex)).take (5 - n) := by
  induction results with
  | nil => intro n _; simp [searchLoop]
  | cons p rest ih =>
    intro n hn
    by_cases hself : isSelfMatch ex p.name
    · have hk : keepPlace ex p = false := by simp [keepPlace, hself]
      simp [searchLoop, hself, List.filter_cons, hk, ih n hn]
    · by_cases hdir : isLargeDirectory p.name
      · have hk : keepPlace ex p = false := by simp [keepPlace, hself, hdir]
        simp [searchLoop, hself, hdir, List.filter_cons, hk, ih n hn]
      · have hk : keepPlace ex p = true := by simp [keepPlace, hself, hdir]
        by_cases hfull : 5 ≤ n + 1
        · have hn4 : n = 4 := by omega
          simp [searchLoop, hself, hdir, hfull, List.filter_cons, hk, hn4]
        · have hn' : n + 1 ≤ 4 := by omega
          have hsub : 5 - n = (5 - (n + 1)) + 1 := by omega
          simp [searchLoop, hself, hdir, hfull, List.filter_cons, hk, ih (n + 1) hn', hsub]

lemma searchNearbyPlaces_eq_filter_take (name : String) (results : List Place) :
    searchNearbyPlaces name results =
      (results.filter (keepPlace (lowerStr name))).take 5 := by
  simpa using searchLoop_filter_take (lowerStr name) results 0 (by omega)

/-- The fixed generic-category list guarding industry detection in
`runCompetitiveAnalysis`. -/
def genericTypes : List String :=
  ["point of interest", "point_of_interest", "establishment", "premise",
   "subpremise", "political", "locality", "route", "intersection", "finance"]

/-- `genericTypes.some(t => detectedType.toLowerCase() === t)`. -/
def isGenericType (t : String) : Bool :=
  genericTypes.any (fun g => lowerStr t == g)

/-- The industry-selection logic of `runCompetitiveAnalysis` (steps just
before competitor discovery): keep the caller-supplied industry when
present; otherwise adopt the detected primary category, but only when the
category is truthy and not generic. -/
def effectiveIndustry (industry primaryType : Option String) : Option String :=
  match primaryType with
  | some t =>
    if (t != "") && !(isGenericType t) then
      if jsTruthy industry then industry else some t
    else industry
  | none => industry

/-- One row of the `analyses` table, reduced to the key fields
`deleteAnalysis` filters on. -/
structure AnalysisRow where
  id : ℕ
  userId : ℕ
deriving DecidableEq

/-- One row of the `competitors` table, reduced to its owning analysis id
and a payload marker. -/
structure CompetitorTableRow where
  analysisId : ℕ
  name : String
deriving DecidableEq

/-- The two tables `deleteAnalysis` touches. -/
structure DBTables where
  analyses : List AnalysisRow
  competitors : List CompetitorTableRow
deriving DecidableEq

/-- `deleteAnalysis(id, userId)` from `db.ts`: first delete every
competitor row with the given `analysisId` (no ownership condition), then
delete the analysis row matching both `id` and `userId`, and report
whether any analysis row was affected. -/
def deleteAnalysis (s : DBTables) (id userId : ℕ) : DBTables × Bool :=
  let competitors1 := s.competitors.filter (fun c => !(c.analysisId == id))
  let affectedRows :=
    (s.analyses.filter (fun a => (a.id == id) && (a.userId == userId))).length
  let analyses1 :=
    s.analyses.filter (fun a => !((a.id == id) && (a.userId == userId)))
  (⟨analyses1, competitors1⟩, 0 < affectedRows)

/-- Circuit-breaker states of the `CircuitBreaker` class in `db.ts`
(`opened` stands for the open state of the source). -/
inductive CBState where
  | closed
  | opened
  | halfOpen
deriving DecidableEq, Repr

/-- The mutable fields and configuration of a `CircuitBreaker` instance. -/
structure CircuitBreaker where
  failures : ℕ
  lastFailureTime : ℤ
  state : CBState
  threshold : ℕ
  resetTimeout : ℤ
deriving DecidableEq

/-- Construction of a `CircuitBreaker` (failures 0, last failure time 0,
state closed). -/
def mkCircuitBreaker (threshold : ℕ) (resetTimeout : ℤ) : CircuitBreaker :=
  ⟨0, 0, .closed, threshold, resetTimeout⟩

/-- The observable outcome of one `execute` call: rejected without
invoking the wrapped function, or invoked with success, or invoked with
the wrapped call failing (the error is rethrown in the source). -/
inductive CBOutcome where
  | rejected
  | success
  | failure
deriving DecidableEq, Repr

/-- `CircuitBreaker.execute` as a state transition: `now` is `Date.now()`
and `fnSucceeds` tells whether the wrapped call would succeed when
invoked. While open and within `resetTimeout` of the last failure the call
is rejected without invoking the function; otherwise the breaker (half-open
when it was open) runs the function, closing and resetting on a half-open
success, and counting failures (opening at the threshold) on failure. -/
def CircuitBreaker.execute (cb : CircuitBreaker) (now : ℤ) (fnSucceeds : Bool) :
    CircuitBreaker × CBOutcome :=
  if cb.state = .opened ∧ now - cb.lastFailureTime < cb.resetTimeout then
    (cb, .rejected)
  else
    let cb1 := if cb.state = .opened then { cb with state := .halfOpen } else cb
    if fnSucceeds then
      if cb1.state = .halfOpen then
        ({ cb1 with state := .closed, failures := 0 }, .success)
      else (cb1, .success)
    else
      let f := cb1.failures + 1
      let newState := if cb1.threshold ≤ f then CBState.opened else cb1.state
      ({ cb1 with failures := f, lastFailureTime := now, state := newState }, .failure)

/-- One generated ad-copy variant. -/
structure AdVariant where
  headline : String
  description : String
  callToAction : String
  platform : String
deriving DecidableEq

/-- The presence data consumed by the pipeline (the analyzer itself
swallows every network failure and always resolves). -/
structure PresenceData where
  hasGoogleBusiness : Bool
  googleRating : Option ℚ
  reviewCount : Option ℕ
  primaryType : Option String
deriving DecidableEq

/-- The AI-insights payload consumed by the pipeline (the service returns
a fixed fallback instead of throwing). -/
structure AIInsights where
  overallAnalysis : String
  detectedIndustry : Option String
deriving DecidableEq

/-- The enrichment payload for one competitor. -/
structure Enrichment where
  employeeCount : Option String
  fundingInfo : Option String
  techStack : Option (List String)
  recentNews : Option (List String)
deriving DecidableEq

/-- The fallback enrichment object built by the `.catch` handler of the
per-competitor enrichment call: employeeCount, fundingInfo, techStack and
recentNews all null. -/
def fallbackEnrichment : Enrichment := ⟨none, none, none, none⟩

/-- One competitor as returned by `discoverCompetitors`. -/
structure DiscoveredComp where
  name : String
  placeId : Option String := none
  address : Option String := none
  phone : Option String := none
  website : Option String := none
  rating : Option ℚ := none
  reviewCount : Option ℕ := none
deriving DecidableEq

/-- The outcomes of the two per-competitor sub-calls (SEO analysis of the
competitor site and external enrichment); `Except.error` is a rejected
promise, which the pipeline catches locally. -/
structure CompSub where
  seoOutcome : Except Unit SEOResult
  enrichOutcome : Except Unit Enrichment

/-- The finalized per-competitor record handed to `createCompetitors`. -/
structure CompetitorRow where
  name : String
  url : Option String
  address : Option String
  phone : Option String
  placeId : Option String
  googleRating : Option ℚ
  googleReviewCount : Option ℕ
  seoScore : Option ℕ
  metaTitle : Option String
  metaDescription : Option String
  contentWordCount : Option ℕ
  topKeywords : Option (List String)
  employeeCount : Option String
  fundingInfo : Option String
  techStack : Option (List String)
  recentNews : Option (List String)
  competitiveScore : ℤ
  threatLevel : ThreatLevel
deriving DecidableEq

/-- The per-competitor body of the fan-out in `runCompetitiveAnalysis`:
run the SEO sub-call when the competitor has a website, catching failure
as a null result; run enrichment, catching failure as the fallback
object; copy the SEO fields when present; then compute the competitive
score and threat level. -/
def processCompetitor (comp : DiscoveredComp) (sub : CompSub) : CompetitorRow :=
  let compSeo : Option SEOResult :=
    if jsTruthy comp.website then
      match sub.seoOutcome with
      | .ok r => some r
      | .error _ => none
    else none
  let enriched : Enrichment :=
    match sub.enrichOutcome with
    | .ok e => e
    | .error _ => fallbackEnrichment
  let seoScore : Option ℕ := compSeo.map calculateSEOScore
  let url := jsOrNull comp.website
  let score := calculateCompetitiveScore
    ⟨seoScore.map (fun n => (n : ℚ)), comp.rating,
     (jsOrNullNat comp.reviewCount).map (fun n => (n : ℚ)), url⟩
  { name := comp.name
    url := url
    address := jsOrNull comp.address
    phone := jsOrNull comp.phone
    placeId := jsOrNull comp.placeId
    googleRating := comp.rating
    googleReviewCount := jsOrNullNat comp.reviewCount
    seoScore := seoScore
    metaTitle := compSeo.bind SEOResult.metaTitle
    metaDescription := compSeo.bind SEOResult.metaDescription
    contentWordCount := compSeo.map SEOResult.wordCount
    topKeywords := compSeo.map SEOResult.topKeywords
    employeeCount := enriched.employeeCount
    fundingInfo := enriched.fundingInfo
    techStack := enriched.techStack
    recentNews := enriched.recentNews
    competitiveScore := score
    threatLevel := getThreatLevel score }

/-- The parallel fan-out over the (at most 5) discovered competitors:
each competitor `i` is processed with its own sub-call outcomes
`subs i`; the per-competitor catches make every branch total, so the
joined list always has one finalized row per competitor. -/
def fanOut (subs : ℕ → CompSub) : List DiscoveredComp → ℕ → List CompetitorRow
  | [], _ => []
  | c :: rest, i => processCompetitor c (subs i) :: fanOut subs rest (i + 1)

/-- The analysis record as stored in the `analyses` table, reduced to the
fields the pipeline reads or writes in the modelled updates. -/
structure AnalysisRecord where
  businessName : String
  businessUrl : Option String
  businessLocation : String
  industry : Option String
  status : Status
  completedAt : Option ℕ
  seoScore : Option ℕ
  metaTitle : Option String
  metaDescription : Option String
  contentWordCount : Option ℕ
  hasGoogleBusiness : Option ℕ
  googleRating : Option ℚ
  googleReviewCount : Option ℕ
  overallAnalysis : Option String
  generatedBlogPost : Option String
  generatedAdCopy : Option (List AdVariant)
deriving DecidableEq

/-- The update setting the status to collecting. -/
def setCollecting (r : AnalysisRecord) : AnalysisRecord :=
  { r with status := .collecting }

/-- `updateAnalysis` with the target-SEO fields. -/
def setSeoFields (res : SEOResult) (r : AnalysisRecord) : AnalysisRecord :=
  { r with seoScore := some (calculateSEOScore res), metaTitle := res.metaTitle,
           metaDescription := res.metaDescription, contentWordCount := some res.wordCount }

/-- `updateAnalysis` with the presence fields. -/
def setPresenceFields (p : PresenceData) (r : AnalysisRecord) : AnalysisRecord :=
  { r with hasGoogleBusiness := some (if p.hasGoogleBusiness then 1 else 0),
           googleRating := p.googleRating, googleReviewCount := p.reviewCount }

/-- The update setting the industry to the detected type. -/
def setIndustry (t : String) (r : AnalysisRecord) : AnalysisRecord :=
  { r with industry := some t }

/-- The update setting the status to analyzing. -/
def setAnalyzing (r : AnalysisRecord) : AnalysisRecord :=
  { r with status := .analyzing }

/-- `updateAnalysis` with the AI-insight fields; `industry` falls back to
the stale `analysis` binding fetched at the start of the run. -/
def setInsights (ai : AIInsights) (staleIndustry : Option String)
    (r : AnalysisRecord) : AnalysisRecord :=
  { r with overallAnalysis := some ai.overallAnalysis,
           industry := jsOrOpt ai.detectedIndustry staleIndustry }

/-- The update storing the generated blog post, issued inside `generateContent`. -/
def setBlog (s : String) (r : AnalysisRecord) : AnalysisRecord :=
  { r with generatedBlogPost := some s }

/-- The update storing the generated ad copy, issued inside `generateContent`. -/
def setAdVariants (ads : List AdVariant) (r : AnalysisRecord) : AnalysisRecord :=
  { r with generatedAdCopy := some ads }

/-- The final `updateAnalysis` of the success path: content fields,
status `completed` and the completion timestamp, in one write. -/
def setCompleted (blog : String) (ads : List AdVariant) (now : ℕ)
    (r : AnalysisRecord) : AnalysisRecord :=
  { r with generatedBlogPost := some blog, generatedAdCopy := some ads,
           status := .completed, completedAt := some now }

/-- The update setting the status to failed, issued by the catch handler. -/
def setFailed (r : AnalysisRecord) : AnalysisRecord :=
  { r with status := .failed }

/-- One awaited, fallible operation of the pipeline body: a record write
(`updateAnalysis`), a record read (`getAnalysisById` /
`getCompetitorsByAnalysisId`, where a failed or not-found read throws), or
the bulk competitor insert (`createCompetitors`). The `Bool` tells whether
the operation succeeds in the modelled execution. -/
inductive StageOp where
  | write : Bool → (AnalysisRecord → AnalysisRecord) → StageOp
  | read : Bool → StageOp
  | save : Bool → List CompetitorRow → StageOp

/-- The database state threaded through one pipeline run: the current
analysis record, the snapshots after each applied write (newest first),
and the saved competitor rows. -/
structure St where
  record : AnalysisRecord
  statesRev : List AnalysisRecord
  saved : List CompetitorRow

/-- Execute one operation: a successful write applies its update and
records the snapshot; a failed operation throws, carrying the state at
the point of failure to the catch handler. -/
def execOp : StageOp → St → Except St St
  | .write ok f, st =>
    if ok then
      .ok { st with record := f st.record, statesRev := f st.record :: st.statesRev }
    else .error st
  | .read ok, st => if ok then .ok st else .error st
  | .save ok rows, st =>
    if ok then .ok { st with saved := st.saved ++ rows } else .error st

/-- Execute a sequence of operations, stopping at the first throw. -/
def execOps : List StageOp → St → Except St St
  | [], st => .ok st
  | op :: ops, st =>
    match execOp op st with
    | .ok st1 => execOps ops st1
    | .error st1 => .error st1

/-- The environment of one pipeline run: the success of each database
operation, and the payloads produced by the external collaborators (all
of which resolve on their own, their services catching internally). -/
structure PipelineEnv where
  updCollecting : Bool
  getAnalysis1 : Bool
  seoTarget : SEOResult
  updSeo : Bool
  presence : PresenceData
  updPresence : Bool
  updIndustry : Bool
  discovered : List DiscoveredComp
  subs : ℕ → CompSub
  createCompetitorsOk : Bool
  updAnalyzing : Bool
  getAnalysis2 : Bool
  getCompetitorsOk : Bool
  aiInsights : AIInsights
  updInsights : Bool
  getAnalysis3 : Bool
  blogPost : String
  adCopy : List AdVariant
  updBlog : Bool
  updAdCopy : Bool
  updCompleted : Bool
  updFailed : Bool
  now : ℕ

/-- The collecting-phase operations after the initial status write: fetch
the record (throwing when unavailable or not found), the optional
target-SEO write, the presence write, the conditional industry write, and
the bulk competitor insert (skipped when no competitor was discovered).
The branches read the `analysis` binding fetched right after the
collecting write, whose relevant fields equal those of the initial
record. -/
def collectOps (env : PipelineEnv) (r0 : AnalysisRecord) : List StageOp :=
  [StageOp.read env.getAnalysis1]
  ++ (if jsTruthy r0.businessUrl
      then [StageOp.write env.updSeo (setSeoFields env.seoTarget)] else [])
  ++ [StageOp.write env.updPresence (setPresenceFields env.presence)]
  ++ (match env.presence.primaryType with
      | some t =>
        if (t != "") && !(isGenericType t) && !(jsTruthy r0.industry) then
          [StageOp.write env.updIndustry (setIndustry t)]
        else []
      | none => [])
  ++ (let rows := fanOut env.subs (env.discovered.take 5) 0
      if rows.isEmpty then [] else [StageOp.save env.createCompetitorsOk rows])

/-- The analyzing-phase operations after the status write to `analyzing`:
two reads, the insights write, another read, and the two content writes
issued inside `generateContent`. -/
def analyzeOps (env : PipelineEnv) (r0 : AnalysisRecord) : List StageOp :=
  [StageOp.read env.getAnalysis2,
   StageOp.read env.getCompetitorsOk,
   StageOp.write env.updInsights (setInsights env.aiInsights r0.industry),
   StageOp.read env.getAnalysis3,
   StageOp.write env.updBlog (setBlog env.blogPost),
   StageOp.write env.updAdCopy (setAdVariants env.adCopy)]

/-- The full operation sequence of the pipeline body, in source order. -/
def script (env : PipelineEnv) (r0 : AnalysisRecord) : List StageOp :=
  StageOp.write env.updCollecting setCollecting
  :: (collectOps env r0
      ++ StageOp.write env.updAnalyzing setAnalyzing
      :: (analyzeOps env r0
          ++ [StageOp.write env.updCompleted
                (setCompleted env.blogPost env.adCopy env.now)]))

/-- The observable result of one `runCompetitiveAnalysis` call. -/
structure RunResult where
  states : List AnalysisRecord
  finalRecord : AnalysisRecord
  saved : List CompetitorRow
  threw : Bool
  loggedError : Bool

/-- `runCompetitiveAnalysis`: run the stage sequence; on a throw, the
catch handler logs the error, writes `status: "failed"` (itself a
fallible write) and rethrows to the caller of the function. -/
def runCompetitiveAnalysis (env : PipelineEnv) (r0 : AnalysisRecord) : RunResult :=
  match execOps (script env r0) ⟨r0, [], []⟩ with
  | .ok st => ⟨st.statesRev.reverse, st.record, st.saved, false, false⟩
  | .error st =>
    if env.updFailed then
      ⟨(setFailed st.record :: st.statesRev).reverse, setFailed st.record,
       st.saved, true, true⟩
    else ⟨st.statesRev.reverse, st.record, st.saved, true, true⟩

/-- The caller-supplied input of `analysis.create`. -/
structure AnalysisInput where
  businessName : String
  businessUrl : Option String
  businessLocation : String
  industry : Option String

/-- `createAnalysis` as issued by the `analysis.create` mutation: the
record starts `pending` with no completion timestamp and no derived
fields. -/
def createAnalysis (inp : AnalysisInput) : AnalysisRecord :=
  { businessName := inp.businessName
    businessUrl := jsOrNull inp.businessUrl
    businessLocation := inp.businessLocation
    industry := jsOrNull inp.industry
    status := .pending
    completedAt := none
    seoScore := none
    metaTitle := none
    metaDescription := none
    contentWordCount := none
    hasGoogleBusiness := none
    googleRating := none
    googleReviewCount := none
    overallAnalysis := none
    generatedBlogPost := none
    generatedAdCopy := none }

/-- The response and side effects of the `analysis.create` mutation: the
record is created `pending`, the pipeline is launched detached with a
`.catch` handler that only logs, and the caller receives
the id with a pending status, whatever the fate of the pipeline. -/
structure LaunchResult where
  response : Status
  run : RunResult
  callerSeesError : Bool

/-- `analysis.create`: create the record and launch the pipeline; the
attached `.catch` swallows a rethrown pipeline error after logging it. -/
def startAnalysis (inp : AnalysisInput) (env : PipelineEnv) : LaunchResult :=
  ⟨.pending, runCompetitiveAnalysis env (createAnalysis inp), false⟩

/-- The stored record states over one run, oldest first, starting from
the initial record. -/
def runStates (env : PipelineEnv) (r0 : AnalysisRecord) : List AnalysisRecord :=
  r0 :: (runCompetitiveAnalysis env r0).states

/-- Collapse consecutive repeats (writes that do not change the status
leave the stored status unchanged). -/
def dedupConsec : List Status → List Status
  | [] => []
  | [s] => [s]
  | s :: t :: rest =>
    if s = t then dedupConsec (t :: rest) else s :: dedupConsec (t :: rest)

/-- The sequence of distinct stored status values observed over one run. -/
def statusPath (env : PipelineEnv) (r0 : AnalysisRecord) : List Status :=
  dedupConsec ((runStates env r0).map AnalysisRecord.status)

lemma execOps_append (l1 l2 : List StageOp) (st : St) :
    execOps (l1 ++ l2) st =
      match execOps l1 st with
      | .ok st1 => execOps l2 st1
      | .error e => .error e := by
  induction l1 generalizing st with
  | nil => simp [execOps]
  | cons op ops ih =>
    simp only [List.cons_append, execOps]
    cases execOp op st with
    | ok st1 => exact ih st1
    | error st1 => rfl

/-- A stage operation whose write (if any) changes neither the stored
status nor the completion timestamp. -/
def opFine : StageOp → Prop
  | .write _ f => ∀ r, (f r).status = r.status ∧ (f r).completedAt = r.completedAt
  | .read _ => True
  | .save _ _ => True

/-- The state carried out of a stage sequence, whether it completed or
threw. -/
def outSt : Except St St → St
  | .ok st => st
  | .error st => st

/-- What a status-preserving phase does to the state: the record keeps
its status and completion timestamp, and every new snapshot carries that
same status and timestamp. -/
def phRel (st st' : St) : Prop :=
  st'.record.status = st.record.status ∧
  st'.record.completedAt = st.record.completedAt ∧
  ∃ snew, st'.statesRev = snew ++ st.statesRev ∧
    ∀ r ∈ snew, r.status = st.record.status ∧ r.completedAt = st.record.completedAt

lemma phRel_refl (st : St) : phRel st st := ⟨rfl, rfl, [], rfl, by simp⟩

lemma phase_exec (l : List StageOp) (st : St) (hl : ∀ op ∈ l, opFine op) :
    phRel st (outSt (execOps l st)) := by
  induction l generalizing st with
  | nil => exact phRel_refl st
  | cons op ops ih =>
    have hop : opFine op := hl op (by simp)
    have hops : ∀ o ∈ ops, opFine o := fun o ho => hl o (by simp [ho])
    cases op with
    | write ok f =>
      by_cases hok : ok
      · have hf : ∀ r, (f r).status = r.status ∧ (f r).completedAt = r.completedAt := hop
        have hstep :
            execOps (StageOp.write ok f :: ops) st =
              execOps ops
                { st with record := f st.record,
                          statesRev := f st.record :: st.statesRev } := by
          simp [execOps, execOp, hok]
        rw [hstep]
        have h1 := ih { st with record := f st.record,
                                statesRev := f st.record :: st.statesRev } hops
        obtain ⟨hs, hc, snew, hrev, hmem⟩ := h1
        refine ⟨?_, ?_, snew ++ [f st.record], ?_, ?_⟩
        · rw [hs]; exact (hf st.record).1
        · rw [hc]; exact (hf st.record).2
        · simpa using hrev
        · intro r hr
          rcases List.mem_append.mp hr with hr1 | hr2
          · have := hmem r hr1
            exact ⟨this.1.trans (hf st.record).1, this.2.trans (hf st.record).2⟩
          · have : r = f st.record := by simpa using hr2
            subst this
            exact hf st.record
      · have hstep : execOps (StageOp.write ok f :: ops) st = .error st := by
          simp [execOps, execOp, hok]
        rw [hstep]
        exact phRel_refl st
    | read ok =>
      by_cases hok : ok
      · have hstep : execOps (StageOp.read ok :: ops) st = execOps ops st := by
          simp [execOps, execOp, hok]
        rw [hstep]
        exact ih st hops
      · have hstep : execOps (StageOp.read ok :: ops) st = .error st := by
          simp [execOps, execOp, hok]
        rw [hstep]
        exact phRel_refl st
    | save ok rows =>
      by_cases hok : ok
      · have hstep :
            execOps (StageOp.save ok rows :: ops) st =
              execOps ops { st with saved := st.saved ++ rows } := by
          simp [execOps, execOp, hok]
        rw [hstep]
        exact ih { st with saved := st.saved ++ rows } hops
      · have hstep : execOps (StageOp.save ok rows :: ops) st = .error st := by
          simp [execOps, execOp, hok]
        rw [hstep]
        exact phRel_refl st

/-- Whether the database operation behind a stage op succeeds. -/
def opOk : StageOp → Bool
  | .write ok _ => ok
  | .read ok => ok
  | .save ok _ => ok

/-- The effect of a stage sequence when every operation succeeds. -/
def runAll : List StageOp → St → St
  | [], st => st
  | .write _ f :: ops, st =>
    runAll ops { st with record := f st.record, statesRev := f st.record :: st.statesRev }
  | .read _ :: ops, st => runAll ops st
  | .save _ rows :: ops, st => runAll ops { st with saved := st.saved ++ rows }

lemma execOps_allOk (l : List StageOp) (st : St) (h : ∀ op ∈ l, opOk op = true) :
    execOps l st = .ok (runAll l st) := by
  induction l generalizing st with
  | nil => rfl
  | cons op ops ih =>
    have hop : opOk op = true := h op (by simp)
    have hops : ∀ o ∈ ops, opOk o = true := fun o ho => h o (by simp [ho])
    cases op with
    | write ok f =>
      have hok : ok = true := hop
      subst hok
      simp only [execOps, execOp, if_true, runAll]
      exact ih _ hops
    | read ok =>
      have hok : ok = true := hop
      subst hok
      simp only [execOps, execOp, if_true, runAll]
      exact ih _ hops
    | save ok rows =>
      have hok : ok = true := hop
      subst hok
      simp only [execOps, execOp, if_true, runAll]
      exact ih _ hops

lemma runAll_append (l1 l2 : List StageOp) (st : St) :
    runAll (l1 ++ l2) st = runAll l2 (runAll l1 st) := by
  induction l1 generalizing st with
  | nil => rfl
  | cons op ops ih =>
    cases op <;> simp only [List.cons_append, runAll] <;> exact ih _

/-- The record produced by applying every write of a stage sequence. -/
def applyWrites : List StageOp → AnalysisRecord → AnalysisRecord
  | [], r => r
  | .write _ f :: ops, r => applyWrites ops (f r)
  | .read _ :: ops, r => applyWrites ops r
  | .save _ _ :: ops, r => applyWrites ops r

lemma runAll_record (l : List StageOp) (st : St) :
    (runAll l st).record = applyWrites l st.record := by
  induction l generalizing st with
  | nil => rfl
  | cons op ops ih => cases op <;> simp only [runAll, applyWrites] <;> exact ih _

/-- The competitor rows inserted by a stage sequence. -/
def savedOf : List StageOp → List CompetitorRow
  | [] => []
  | .save _ rows :: ops => rows ++ savedOf ops
  | .write _ _ :: ops => savedOf ops
  | .read _ :: ops => savedOf ops

lemma runAll_saved (l : List StageOp) (st : St) :
    (runAll l st).saved = st.saved ++ savedOf l := by
  induction l generalizing st with
  | nil => simp [runAll, savedOf]
  | cons op ops ih =>
    cases op <;> simp only [runAll, savedOf] <;> rw [ih] <;> (try simp)

/-- All database operations of one run succeed. -/
def dbOk (env : PipelineEnv) : Bool :=
  env.updCollecting && env.getAnalysis1 && env.updSeo && env.updPresence &&
  env.updIndustry && env.createCompetitorsOk && env.updAnalyzing &&
  env.getAnalysis2 && env.getCompetitorsOk && env.updInsights &&
  env.getAnalysis3 && env.updBlog && env.updAdCopy && env.updCompleted

lemma collectOps_fine (env : PipelineEnv) (r0 : AnalysisRecord) :
    ∀ op ∈ collectOps env r0, opFine op := by
  intro op hop
  unfold collectOps at hop
  cases hpt : env.presence.primaryType <;> simp only [hpt] at hop <;>
    repeat' split at hop
  all_goals simp only [List.append_nil, List.nil_append, List.cons_append,
    List.append_assoc, List.mem_append, List.mem_cons, List.mem_singleton,
    List.not_mem_nil, or_false, false_or] at hop
  all_goals repeat' (first | (rcases hop with rfl | hop) | subst hop)
  all_goals simp only [opFine]
  all_goals first
    | trivial
    | exact fun r => ⟨rfl, rfl⟩

lemma analyzeOps_fine (env : PipelineEnv) (r0 : AnalysisRecord) :
    ∀ op ∈ analyzeOps env r0, opFine op := by
  intro op hop
  unfold analyzeOps at hop
  simp only [List.mem_cons, List.not_mem_nil, or_false] at hop
  repeat' (first | (rcases hop with rfl | hop) | subst hop)
  all_goals simp only [opFine]
  all_goals first
    | trivial
    | exact fun r => ⟨rfl, rfl⟩

lemma collectOps_ok (env : PipelineEnv) (r0 : AnalysisRecord) (h : dbOk env = true) :
    ∀ op ∈ collectOps env r0, opOk op = true := by
  simp only [dbOk, Bool.and_eq_true, and_assoc] at h
  obtain ⟨h1, h2, h3, h4, h5, h6, h7, h8, h9, h10, h11, h12, h13, h14⟩ := h
  intro op hop
  unfold collectOps at hop
  cases hpt : env.presence.primaryType <;> simp only [hpt] at hop <;>
    repeat' split at hop
  all_goals simp only [List.append_nil, List.nil_append, List.cons_append,
    List.append_assoc, List.mem_append, List.mem_cons, List.mem_singleton,
    List.not_mem_nil, or_false, false_or] at hop
  all_goals repeat' (first | (rcases hop with rfl | hop) | subst hop)
  all_goals simp only [opOk]
  all_goals assumption

lemma analyzeOps_ok (env : PipelineEnv) (r0 : AnalysisRecord) (h : dbOk env = true) :
    ∀ op ∈ analyzeOps env r0, opOk op = true := by
  simp only [dbOk, Bool.and_eq_true, and_assoc] at h
  obtain ⟨h1, h2, h3, h4, h5, h6, h7, h8, h9, h10, h11, h12, h13, h14⟩ := h
  intro op hop
  unfold analyzeOps at hop
  simp only [List.mem_cons, List.not_mem_nil, or_false] at hop
  repeat' (first | (rcases hop with rfl | hop) | subst hop)
  all_goals simp only [opOk]
  all_goals assumption

lemma script_ops_ok (env : PipelineEnv) (r0 : AnalysisRecord) (h : dbOk env = true) :
    ∀ op ∈ script env r0, opOk op = true := by
  have hflags := h
  simp only [dbOk, Bool.and_eq_true, and_assoc] at hflags
  obtain ⟨h1, h2, h3, h4, h5, h6, h7, h8, h9, h10, h11, h12, h13, h14⟩ := hflags
  intro op hop
  unfold script at hop
  rcases List.mem_cons.mp hop with rfl | hop
  · simpa [opOk] using h1
  rcases List.mem_append.mp hop with hop | hop
  · exact collectOps_ok env r0 h op hop
  rcases List.mem_cons.mp hop with rfl | hop
  · simpa [opOk] using h7
  rcases List.mem_append.mp hop with hop | hop
  · exact analyzeOps_ok env r0 h op hop
  · have : op = StageOp.write env.updCompleted
        (setCompleted env.blogPost env.adCopy env.now) := by simpa using hop
    subst this
    simpa [opOk] using h14

lemma applyWrites_append (l1 l2 : List StageOp) (r : AnalysisRecord) :
    applyWrites (l1 ++ l2) r = applyWrites l2 (applyWrites l1 r) := by
  induction l1 generalizing r with
  | nil => rfl
  | cons op ops ih => cases op <;> simp only [List.cons_append, applyWrites] <;> exact ih _

lemma savedOf_append (l1 l2 : List StageOp) :
    savedOf (l1 ++ l2) = savedOf l1 ++ savedOf l2 := by
  induction l1 with
  | nil => rfl
  | cons op ops ih => cases op <;> simp [savedOf, ih]

lemma savedOf_collectOps (env : PipelineEnv) (r0 : AnalysisRecord) :
    savedOf (collectOps env r0) = fanOut env.subs (env.discovered.take 5) 0 := by
  unfold collectOps
  simp only [savedOf_append, savedOf]
  cases hpt : env.presence.primaryType <;>
    repeat' split
  all_goals
    simp_all only [savedOf, List.append_nil, List.nil_append, List.isEmpty_iff]

@[simp] lemma savedOf_nil : savedOf [] = [] := rfl

@[simp] lemma savedOf_write (b : Bool) (f : AnalysisRecord → AnalysisRecord)
    (ops : List StageOp) : savedOf (.write b f :: ops) = savedOf ops := rfl

@[simp] lemma savedOf_read (b : Bool) (ops : List StageOp) :
    savedOf (.read b :: ops) = savedOf ops := rfl

@[simp] lemma savedOf_save (b : Bool) (rows : List CompetitorRow) (ops : List StageOp) :
    savedOf (.save b rows :: ops) = rows ++ savedOf ops := rfl

lemma script_grouped (env : PipelineEnv) (r0 : AnalysisRecord) :
    script env r0 =
      (StageOp.write env.updCollecting setCollecting ::
        (collectOps env r0 ++
          StageOp.write env.updAnalyzing setAnalyzing :: analyzeOps env r0))
      ++ [StageOp.write env.updCompleted (setCompleted env.blogPost env.adCopy env.now)] := by
  simp [script]

lemma applyWrites_script_final (env : PipelineEnv) (r0 : AnalysisRecord) :
    (applyWrites (script env r0) r0).status = .completed ∧
    (applyWrites (script env r0) r0).completedAt = some env.now := by
  rw [script_grouped, applyWrites_append]
  exact ⟨rfl, rfl⟩

lemma savedOf_script (env : PipelineEnv) (r0 : AnalysisRecord) :
    savedOf (script env r0) = fanOut env.subs (env.discovered.take 5) 0 := by
  unfold script
  rw [savedOf_write, savedOf_append, savedOf_collectOps, savedOf_write]
  rw [savedOf_append]
  simp [analyzeOps]

lemma run_allOk (env : PipelineEnv) (r0 : AnalysisRecord) (h : dbOk env = true) :
    (runCompetitiveAnalysis env r0).threw = false ∧
    (runCompetitiveAnalysis env r0).finalRecord.status = .completed ∧
    (runCompetitiveAnalysis env r0).finalRecord.completedAt = some env.now ∧
    (runCompetitiveAnalysis env r0).saved = fanOut env.subs (env.discovered.take 5) 0 := by
  have hst := execOps_allOk (script env r0) ⟨r0, [], []⟩ (script_ops_ok env r0 h)
  have hrun : runCompetitiveAnalysis env r0 =
      ⟨(runAll (script env r0) ⟨r0, [], []⟩).statesRev.reverse,
       (runAll (script env r0) ⟨r0, [], []⟩).record,
       (runAll (script env r0) ⟨r0, [], []⟩).saved, false, false⟩ := by
    unfold runCompetitiveAnalysis
    rw [hst]
  rw [hrun]
  have hrec : (runAll (script env r0) ⟨r0, [], []⟩).record =
      applyWrites (script env r0) r0 := runAll_record _ _
  have hsav : (runAll (script env r0) ⟨r0, [], []⟩).saved =
      savedOf (script env r0) := by
    have := runAll_saved (script env r0) ⟨r0, [], []⟩
    simpa using this
  refine ⟨rfl, ?_, ?_, ?_⟩
  · rw [hrec]; exact (applyWrites_script_final env r0).1
  · rw [hrec]; exact (applyWrites_script_final env r0).2
  · rw [hsav, savedOf_script]

/-- A snapshot written during the collecting phase. -/
def collectSnap (r : AnalysisRecord) : Prop :=
  r.status = .collecting ∧ r.completedAt = none

/-- A snapshot written during the analyzing phase. -/
def analyzeSnap (r : AnalysisRecord) : Prop :=
  r.status = .analyzing ∧ r.completedAt = none

lemma stages_shape (env : PipelineEnv) (r0 : AnalysisRecord)
    (h0 : r0.status = .pending) (hc0 : r0.completedAt = none) :
    (∃ st la lc, execOps (script env r0) ⟨r0, [], []⟩ = .ok st ∧
       st.statesRev = st.record :: (la ++ lc) ∧ la ≠ [] ∧ lc ≠ [] ∧
       (∀ r ∈ la, analyzeSnap r) ∧ (∀ r ∈ lc, collectSnap r) ∧
       st.record.status = .completed ∧ st.record.completedAt = some env.now)
  ∨ (∃ st la lc, execOps (script env r0) ⟨r0, [], []⟩ = .error st ∧
       st.statesRev = la ++ lc ∧
       (∀ r ∈ la, analyzeSnap r) ∧ (∀ r ∈ lc, collectSnap r) ∧
       st.record.completedAt = none ∧ st.record.status ≠ .completed ∧
       (la ≠ [] → lc ≠ []) ∧
       (la = [] → lc = [] → st.record = r0) ∧
       (la = [] → lc ≠ [] → st.record.status = .collecting) ∧
       (la ≠ [] → st.record.status = .analyzing) ∧
       (lc = [] ↔ env.updCollecting = false)) := by
  unfold script
  by_cases hu1 : env.updCollecting = true
  · -- the collecting write succeeds
    have hstep1 :
        execOps (StageOp.write env.updCollecting setCollecting ::
            (collectOps env r0 ++
              StageOp.write env.updAnalyzing setAnalyzing ::
                (analyzeOps env r0 ++
                  [StageOp.write env.updCompleted
                    (setCompleted env.blogPost env.adCopy env.now)])))
          ⟨r0, [], []⟩ =
        execOps (collectOps env r0 ++
            StageOp.write env.updAnalyzing setAnalyzing ::
              (analyzeOps env r0 ++
                [StageOp.write env.updCompleted
                  (setCompleted env.blogPost env.adCopy env.now)]))
          ⟨setCollecting r0, [setCollecting r0], []⟩ := by
      simp [execOps, execOp, hu1]
    rw [hstep1, execOps_append]
    have hrel1 := phase_exec (collectOps env r0) ⟨setCollecting r0, [setCollecting r0], []⟩
      (collectOps_fine env r0)
    cases hexec1 : execOps (collectOps env r0) ⟨setCollecting r0, [setCollecting r0], []⟩ with
    | error st1e =>
      rw [hexec1] at hrel1
      simp only [outSt] at hrel1
      obtain ⟨hs1, hc1, snew1, hrev1, hmem1⟩ := hrel1
      refine Or.inr ⟨st1e, [], snew1 ++ [setCollecting r0], rfl, by simpa using hrev1,
        by simp, ?_, ?_, ?_, ?_, ?_, ?_, ?_, ?_⟩
      · intro r hr
        rcases List.mem_append.mp hr with hr1 | hr2
        · have := hmem1 r hr1
          exact ⟨this.1.trans rfl, this.2.trans hc0⟩
        · have : r = setCollecting r0 := by simpa using hr2
          subst this
          exact ⟨rfl, hc0⟩
      · rw [hc1]; exact hc0
      · rw [hs1]; simp [setCollecting]
      · intro _; simp
      · intro _ h2; exact absurd h2 (by simp)
      · intro _ _; rw [hs1]; rfl
      · intro h; exact absurd rfl h
      · constructor
        · intro h; exact absurd h (by simp)
        · intro h; rw [h] at hu1; simp at hu1
    | ok st2 =>
      rw [hexec1] at hrel1
      simp only [outSt] at hrel1
      obtain ⟨hs2, hc2, snew2, hrev2, hmem2⟩ := hrel1
      dsimp only
      by_cases hu2 : env.updAnalyzing = true
      · -- the analyzing write succeeds
        have hstep2 :
            execOps (StageOp.write env.updAnalyzing setAnalyzing ::
                (analyzeOps env r0 ++
                  [StageOp.write env.updCompleted
                    (setCompleted env.blogPost env.adCopy env.now)])) st2 =
            execOps (analyzeOps env r0 ++
                [StageOp.write env.updCompleted
                  (setCompleted env.blogPost env.adCopy env.now)])
              { st2 with record := setAnalyzing st2.record,
                         statesRev := setAnalyzing st2.record :: st2.statesRev } := by
          simp [execOps, execOp, hu2]
        rw [hstep2, execOps_append]
        have hrel2 := phase_exec (analyzeOps env r0)
          { st2 with record := setAnalyzing st2.record,
                     statesRev := setAnalyzing st2.record :: st2.statesRev }
          (analyzeOps_fine env r0)
        cases hexec2 : execOps (analyzeOps env r0)
            { st2 with record := setAnalyzing st2.record,
                       statesRev := setAnalyzing st2.record :: st2.statesRev } with
        | error st2e =>
          rw [hexec2] at hrel2
          simp only [outSt] at hrel2
          obtain ⟨hs3, hc3, snew3, hrev3, hmem3⟩ := hrel2
          refine Or.inr ⟨st2e, snew3 ++ [setAnalyzing st2.record],
            snew2 ++ [setCollecting r0], rfl, ?_, ?_, ?_, ?_, ?_, ?_, ?_, ?_, ?_, ?_⟩
          · rw [hrev3]
            simp only [List.cons_append, List.append_assoc, List.singleton_append]
            rw [hrev2]
            simp
          · intro r hr
            rcases List.mem_append.mp hr with hr1 | hr2
            · have := hmem3 r hr1
              refine ⟨this.1.trans rfl, this.2.trans ?_⟩
              show st2.record.completedAt = none
              rw [hc2]; exact hc0
            · have : r = setAnalyzing st2.record := by simpa using hr2
              subst this
              refine ⟨rfl, ?_⟩
              show st2.record.completedAt = none
              rw [hc2]; exact hc0
          · intro r hr
            rcases List.mem_append.mp hr with hr1 | hr2
            · have := hmem2 r hr1
              exact ⟨this.1.trans rfl, this.2.trans hc0⟩
            · have : r = setCollecting r0 := by simpa using hr2
              subst this
              exact ⟨rfl, hc0⟩
          · rw [hc3]
            show st2.record.completedAt = none
            rw [hc2]; exact hc0
          · rw [hs3]; simp [setAnalyzing]
          · intro _; simp
          · intro h1; exact absurd h1 (by simp)
          · intro h1; exact absurd h1 (by simp)
          · intro _; rw [hs3]; rfl
          · constructor
            · intro h; exact absurd h (by simp)
            · intro h; rw [h] at hu1; simp at hu1
        | ok st4 =>
          rw [hexec2] at hrel2
          simp only [outSt] at hrel2
          obtain ⟨hs4, hc4, snew4, hrev4, hmem4⟩ := hrel2
          dsimp only
          by_cases hu3 : env.updCompleted = true
          · -- the completed write succeeds
            have hstep3 :
                execOps [StageOp.write env.updCompleted
                    (setCompleted env.blogPost env.adCopy env.now)] st4 =
                .ok { st4 with
                        record := setCompleted env.blogPost env.adCopy env.now st4.record,
                        statesRev := setCompleted env.blogPost env.adCopy env.now st4.record
                          :: st4.statesRev } := by
              simp [execOps, execOp, hu3]
            rw [hstep3]
            refine Or.inl ⟨_, snew4 ++ [setAnalyzing st2.record],
              snew2 ++ [setCollecting r0], rfl, ?_, by simp, by simp, ?_, ?_, rfl, rfl⟩
            · show setCompleted env.blogPost env.adCopy env.now st4.record :: st4.statesRev
                = _ :: (_ ++ _)
              rw [hrev4]
              simp only [List.cons_append, List.append_assoc, List.singleton_append]
              rw [hrev2]
              simp
            · intro r hr
              rcases List.mem_append.mp hr with hr1 | hr2
              · have := hmem4 r hr1
                refine ⟨this.1.trans rfl, this.2.trans ?_⟩
                show st2.record.completedAt = none
                rw [hc2]; exact hc0
              · have : r = setAnalyzing st2.record := by simpa using hr2
                subst this
                refine ⟨rfl, ?_⟩
                show st2.record.completedAt = none
                rw [hc2]; exact hc0
            · intro r hr
              rcases List.mem_append.mp hr with hr1 | hr2
              · have := hmem2 r hr1
                exact ⟨this.1.trans rfl, this.2.trans hc0⟩
              · have : r = setCollecting r0 := by simpa using hr2
                subst this
                exact ⟨rfl, hc0⟩
          · -- the completed write fails
            have hstep3 :
                execOps [StageOp.write env.updCompleted
                    (setCompleted env.blogPost env.adCopy env.now)] st4 = .error st4 := by
              simp [execOps, execOp, hu3]
            rw [hstep3]
            refine Or.inr ⟨st4, snew4 ++ [setAnalyzing st2.record],
              snew2 ++ [setCollecting r0], rfl, ?_, ?_, ?_, ?_, ?_, ?_, ?_, ?_, ?_, ?_⟩
            · rw [hrev4]
              simp only [List.cons_append, List.append_assoc, List.singleton_append]
              rw [hrev2]
              simp
            · intro r hr
              rcases List.mem_append.mp hr with hr1 | hr2
              · have := hmem4 r hr1
                refine ⟨this.1.trans rfl, this.2.trans ?_⟩
                show st2.record.completedAt = none
                rw [hc2]; exact hc0
              · have : r = setAnalyzing st2.record := by simpa using hr2
                subst this
                refine ⟨rfl, ?_⟩
                show st2.record.completedAt = none
                rw [hc2]; exact hc0
            · intro r hr
              rcases List.mem_append.mp hr with hr1 | hr2
              · have := hmem2 r hr1
                exact ⟨this.1.trans rfl, this.2.trans hc0⟩
              · have : r = setCollecting r0 := by simpa using hr2
                subst this
                exact ⟨rfl, hc0⟩
            · rw [hc4]
              show st2.record.completedAt = none
              rw [hc2]; exact hc0
            · rw [hs4]; simp [setAnalyzing]
            · intro _; simp
            · intro h1; exact absurd h1 (by simp)
            · intro h1; exact absurd h1 (by simp)
            · intro _; rw [hs4]; rfl
            · constructor
              · intro h; exact absurd h (by simp)
              · intro h; rw [h] at hu1; simp at hu1
      · -- the analyzing write fails
        have hstep2 :
            execOps (StageOp.write env.updAnalyzing setAnalyzing ::
                (analyzeOps env r0 ++
                  [StageOp.write env.updCompleted
                    (setCompleted env.blogPost env.adCopy env.now)])) st2 = .error st2 := by
          simp [execOps, execOp, hu2]
        rw [hstep2]
        refine Or.inr ⟨st2, [], snew2 ++ [setCollecting r0], rfl, by simpa using hrev2,
          by simp, ?_, ?_, ?_, ?_, ?_, ?_, ?_, ?_⟩
        · intro r hr
          rcases List.mem_append.mp hr with hr1 | hr2
          · have := hmem2 r hr1
            exact ⟨this.1.trans rfl, this.2.trans hc0⟩
          · have : r = setCollecting r0 := by simpa using hr2
            subst this
            exact ⟨rfl, hc0⟩
        · rw [hc2]; exact hc0
        · rw [hs2]; simp [setCollecting]
        · intro _; simp
        · intro _ h2; exact absurd h2 (by simp)
        · intro _ _; rw [hs2]; rfl
        · intro h; exact absurd rfl h
        · constructor
          · intro h; exact absurd h (by simp)
          · intro h; rw [h] at hu1; simp at hu1
  · -- the collecting write itself fails
    have hstep1 :
        execOps (StageOp.write env.updCollecting setCollecting ::
            (collectOps env r0 ++
              StageOp.write env.updAnalyzing setAnalyzing ::
                (analyzeOps env r0 ++
                  [StageOp.write env.updCompleted
                    (setCompleted env.blogPost env.adCopy env.now)])))
          ⟨r0, [], []⟩ = .error ⟨r0, [], []⟩ := by
      simp [execOps, execOp, hu1]
    rw [hstep1]
    refine Or.inr ⟨⟨r0, [], []⟩, [], [], rfl, rfl, by simp, by simp, hc0, ?_,
      ?_, ?_, ?_, ?_, ?_⟩
    · rw [h0]; simp
    · intro h; exact absurd rfl h
    · intro _ _; rfl
    · intro _ h; exact absurd rfl h
    · intro h; exact absurd rfl h
    · simp only [true_iff]
      simpa using hu1

@[simp] lemma dedupConsec_nil : dedupConsec [] = [] := rfl

@[simp] lemma dedupConsec_singleton (s : Status) : dedupConsec [s] = [s] := rfl

lemma dedupConsec_cons_cons (s t : Status) (rest : List Status) :
    dedupConsec (s :: t :: rest) =
      if s = t then dedupConsec (t :: rest) else s :: dedupConsec (t :: rest) := rfl

lemma dedupConsec_block (s : Status) (bl rest : List Status) (h : ∀ x ∈ bl, x = s) :
    dedupConsec (s :: (bl ++ rest)) = dedupConsec (s :: rest) := by
  induction bl with
  | nil => rfl
  | cons x xs ih =>
    have hx : x = s := h x (by simp)
    subst hx
    rw [List.cons_append, dedupConsec_cons_cons, if_pos rfl]
    exact ih (fun y hy => h y (by simp [hy]))

lemma dedupConsec_const (s : Status) (bl : List Status) (h : ∀ x ∈ bl, x = s) :
    dedupConsec (s :: bl) = [s] := by
  induction bl with
  | nil => rfl
  | cons x xs ih =>
    have hx : x = s := h x (by simp)
    subst hx
    rw [dedupConsec_cons_cons, if_pos rfl]
    exact ih (fun y hy => h y (by simp [hy]))

lemma dedup_pca_tail (C A : List Status) (t : Status) (hC : ∀ x ∈ C, x = .collecting)
    (hA : ∀ x ∈ A, x = .analyzing)
    (ht1 : t ≠ .pending) (ht2 : t ≠ .collecting) (ht3 : t ≠ .analyzing) :
    dedupConsec (.pending :: (C ++ A ++ [t])) =
      .pending :: ((if C = [] then [] else [.collecting]) ++
        (if A = [] then [] else [.analyzing]) ++ [t]) := by
  cases C with
  | nil =>
    cases A with
    | nil =>
      simp only [List.nil_append, if_pos rfl]
      rw [dedupConsec_cons_cons, if_neg (Ne.symm ht1)]
      rfl
    | cons a A2 =>
      have ha : a = .analyzing := hA a (by simp)
      subst ha
      simp only [List.nil_append, if_pos rfl, if_neg (List.cons_ne_nil _ _), List.cons_append]
      rw [dedupConsec_cons_cons, if_neg (by decide)]
      rw [dedupConsec_block _ A2 _ (fun y hy => hA y (by simp [hy]))]
      rw [dedupConsec_cons_cons, if_neg (Ne.symm ht3)]
      rfl
  | cons c C2 =>
    have hc : c = .collecting := hC c (by simp)
    subst hc
    simp only [if_neg (List.cons_ne_nil _ _), List.cons_append]
    rw [dedupConsec_cons_cons, if_neg (by decide)]
    rw [List.append_assoc]
    rw [dedupConsec_block _ C2 _ (fun y hy => hC y (by simp [hy]))]
    cases A with
    | nil =>
      simp only [List.nil_append, if_pos rfl]
      rw [dedupConsec_cons_cons, if_neg (Ne.symm ht2)]
      rfl
    | cons a A2 =>
      have ha : a = .analyzing := hA a (by simp)
      subst ha
      simp only [if_neg (List.cons_ne_nil _ _), List.cons_append]
      rw [dedupConsec_cons_cons, if_neg (by decide)]
      rw [dedupConsec_block _ A2 _ (fun y hy => hA y (by simp [hy]))]
      rw [dedupConsec_cons_cons, if_neg (Ne.symm ht3)]
      rfl

lemma dedup_pca_notail (C A : List Status) (hC : ∀ x ∈ C, x = .collecting)
    (hA : ∀ x ∈ A, x = .analyzing) :
    dedupConsec (.pending :: (C ++ A)) =
      .pending :: ((if C = [] then [] else [.collecting]) ++
        (if A = [] then [] else [.analyzing])) := by
  cases C with
  | nil =>
    cases A with
    | nil => rfl
    | cons a A2 =>
      have ha : a = .analyzing := hA a (by simp)
      subst ha
      simp only [List.nil_append, if_pos rfl, if_neg (List.cons_ne_nil _ _)]
      rw [dedupConsec_cons_cons, if_neg (by decide)]
      rw [dedupConsec_const _ A2 (fun y hy => hA y (by simp [hy]))]
      simp
  | cons c C2 =>
    have hc : c = .collecting := hC c (by simp)
    subst hc
    simp only [if_neg (List.cons_ne_nil _ _), List.cons_append]
    rw [dedupConsec_cons_cons, if_neg (by decide)]
    rw [dedupConsec_block _ C2 _ (fun y hy => hC y (by simp [hy]))]
    cases A with
    | nil => rfl
    | cons a A2 =>
      have ha : a = .analyzing := hA a (by simp)
      subst ha
      simp only [if_neg (List.cons_ne_nil _ _)]
      rw [dedupConsec_cons_cons, if_neg (by decide)]
      rw [dedupConsec_const _ A2 (fun y hy => hA y (by simp [hy]))]
      simp

lemma mem_reverse_map_status {l : List AnalysisRecord} {s : Status}
    (h : ∀ r ∈ l, r.status = s) :
    ∀ x ∈ l.reverse.map AnalysisRecord.status, x = s := by
  intro x hx
  rcases List.mem_map.mp hx with ⟨r, hr, rfl⟩
  exact h r (List.mem_reverse.mp hr)

lemma run_master (env : PipelineEnv) (r0 : AnalysisRecord)
    (h0 : r0.status = .pending) (hc0 : r0.completedAt = none) :
    ((runCompetitiveAnalysis env r0).threw = false →
       statusPath env r0 =
         [Status.pending, Status.collecting, Status.analyzing, Status.completed] ∧
       (runCompetitiveAnalysis env r0).finalRecord.status = .completed ∧
       (runCompetitiveAnalysis env r0).finalRecord.completedAt = some env.now) ∧
    ((runCompetitiveAnalysis env r0).threw = true → env.updFailed = true →
       (runCompetitiveAnalysis env r0).finalRecord.status = .failed ∧
       statusPath env r0 ∈ [[Status.pending, Status.failed],
         [Status.pending, Status.collecting, Status.failed],
         [Status.pending, Status.collecting, Status.analyzing, Status.failed]] ∧
       (statusPath env r0 = [Status.pending, Status.failed] →
         env.updCollecting = false)) ∧
    ((runCompetitiveAnalysis env r0).threw = true → env.updFailed = false →
       (runCompetitiveAnalysis env r0).finalRecord.status ≠ .completed ∧
       (runCompetitiveAnalysis env r0).finalRecord.completedAt = none ∧
       statusPath env r0 ∈ [[Status.pending], [Status.pending, Status.collecting],
         [Status.pending, Status.collecting, Status.analyzing]]) ∧
    (∀ r ∈ runStates env r0, (r.completedAt.isSome ↔ r.status = .completed)) ∧
    ((runCompetitiveAnalysis env r0).threw = true →
       (runCompetitiveAnalysis env r0).loggedError = true) := by
  rcases stages_shape env r0 h0 hc0 with
    ⟨st, la, lc, hexec, hrev, hlane, hlcne, hla, hlc, hstat, hcomp⟩ |
    ⟨st, la, lc, hexec, hrev, hla, hlc, hcnone, hncomp, hlane, hrec0, hcoll, hanal, hiff⟩
  · -- success run
    have hrun : runCompetitiveAnalysis env r0 =
        ⟨st.statesRev.reverse, st.record, st.saved, false, false⟩ := by
      unfold runCompetitiveAnalysis
      rw [hexec]
    have hC : ∀ x ∈ lc.reverse.map AnalysisRecord.status, x = Status.collecting :=
      mem_reverse_map_status (fun r hr => (hlc r hr).1)
    have hA : ∀ x ∈ la.reverse.map AnalysisRecord.status, x = Status.analyzing :=
      mem_reverse_map_status (fun r hr => (hla r hr).1)
    have hCne : lc.reverse.map AnalysisRecord.status ≠ [] := by simp [hlcne]
    have hAne : la.reverse.map AnalysisRecord.status ≠ [] := by simp [hlane]
    have hlist : (runStates env r0).map AnalysisRecord.status =
        Status.pending :: (lc.reverse.map AnalysisRecord.status ++
          la.reverse.map AnalysisRecord.status ++ [Status.completed]) := by
      unfold runStates
      rw [hrun]
      show r0.status :: st.statesRev.reverse.map AnalysisRecord.status = _
      rw [h0, hrev]
      simp [List.reverse_cons, List.reverse_append, hstat, List.append_assoc]
    have hpath : statusPath env r0 =
        [Status.pending, Status.collecting, Status.analyzing, Status.completed] := by
      unfold statusPath
      rw [hlist, dedup_pca_tail _ _ _ hC hA (by decide) (by decide) (by decide),
        if_neg hCne, if_neg hAne]
      rfl
    refine ⟨?_, ?_, ?_, ?_, ?_⟩
    · intro _
      refine ⟨hpath, ?_, ?_⟩
      · rw [hrun]; exact hstat
      · rw [hrun]; exact hcomp
    · intro ht
      rw [hrun] at ht
      simp at ht
    · intro ht
      rw [hrun] at ht
      simp at ht
    · intro r hr
      unfold runStates at hr
      rw [hrun] at hr
      rcases List.mem_cons.mp hr with rfl | hr2
      · rw [hc0, h0]
        simp
      · have hr3 : r ∈ st.statesRev := List.mem_reverse.mp (by simpa using hr2)
        rw [hrev] at hr3
        rcases List.mem_cons.mp hr3 with rfl | hr4
        · rw [hstat, hcomp]
          simp
        · rcases List.mem_append.mp hr4 with hr5 | hr5
          · have := hla r hr5
            rw [this.1, this.2]
            simp
          · have := hlc r hr5
            rw [this.1, this.2]
            simp
    · intro ht
      rw [hrun] at ht
      simp at ht
  · -- throwing run
    have hC : ∀ x ∈ lc.reverse.map AnalysisRecord.status, x = Status.collecting :=
      mem_reverse_map_status (fun r hr => (hlc r hr).1)
    have hA : ∀ x ∈ la.reverse.map AnalysisRecord.status, x = Status.analyzing :=
      mem_reverse_map_status (fun r hr => (hla r hr).1)
    have hCA : la.reverse.map AnalysisRecord.status ≠ [] →
        lc.reverse.map AnalysisRecord.status ≠ [] := by
      intro h
      have : la ≠ [] := by
        intro hla2
        apply h
        rw [hla2]
        simp
      have := hlane this
      simp [this]
    by_cases hup : env.updFailed = true
    · -- the failure-handler write succeeds
      have hrun : runCompetitiveAnalysis env r0 =
          ⟨(setFailed st.record :: st.statesRev).reverse, setFailed st.record,
           st.saved, true, true⟩ := by
        unfold runCompetitiveAnalysis
        rw [hexec]
        dsimp only
        rw [if_pos hup]
      have hlist : (runStates env r0).map AnalysisRecord.status =
          Status.pending :: (lc.reverse.map AnalysisRecord.status ++
            la.reverse.map AnalysisRecord.status ++ [Status.failed]) := by
        unfold runStates
        rw [hrun]
        show r0.status :: ((setFailed st.record :: st.statesRev).reverse.map
          AnalysisRecord.status) = _
        rw [h0, hrev]
        simp [List.reverse_cons, List.reverse_append, setFailed, List.append_assoc]
      have hpath : statusPath env r0 =
          Status.pending ::
            ((if lc.reverse.map AnalysisRecord.status = [] then []
              else [Status.collecting]) ++
             (if la.reverse.map AnalysisRecord.status = [] then []
              else [Status.analyzing]) ++ [Status.failed]) := by
        unfold statusPath
        rw [hlist, dedup_pca_tail _ _ _ hC hA (by decide) (by decide) (by decide)]
      refine ⟨?_, ?_, ?_, ?_, ?_⟩
      · intro ht
        rw [hrun] at ht
        simp at ht
      · intro _ _
        refine ⟨by rw [hrun]; rfl, ?_, ?_⟩
        · rw [hpath]
          by_cases hc : lc.reverse.map AnalysisRecord.status = []
          · have ha : la.reverse.map AnalysisRecord.status = [] := by
              by_contra ha
              exact (hCA ha) hc
            rw [if_pos hc, if_pos ha]
            simp
          · by_cases ha : la.reverse.map AnalysisRecord.status = []
            · rw [if_neg hc, if_pos ha]
              simp
            · rw [if_neg hc, if_neg ha]
              simp
        · intro hpf
          rw [hpath] at hpf
          by_cases hc : lc.reverse.map AnalysisRecord.status = []
          · have hlcnil : lc = [] := by simpa using hc
            exact hiff.mp hlcnil
          · exfalso
            by_cases ha : la.reverse.map AnalysisRecord.status = []
            · rw [if_neg hc, if_pos ha] at hpf
              simp at hpf
            · rw [if_neg hc, if_neg ha] at hpf
              simp at hpf
      · intro ht hf
        rw [hup] at hf
        cases hf
      · intro r hr
        unfold runStates at hr
        rw [hrun] at hr
        rcases List.mem_cons.mp hr with rfl | hr2
        · rw [hc0, h0]
          simp
        · have hr3 : r ∈ setFailed st.record :: st.statesRev :=
            List.mem_reverse.mp (by simpa using hr2)
          rcases List.mem_cons.mp hr3 with rfl | hr4
          · show ((setFailed st.record).completedAt).isSome ↔ _
            simp [setFailed, hcnone]
          · rw [hrev] at hr4
            rcases List.mem_append.mp hr4 with hr5 | hr5
            · have := hla r hr5
              rw [this.1, this.2]
              simp
            · have := hlc r hr5
              rw [this.1, this.2]
              simp
      · intro _
        rw [hrun]
    · -- the failure-handler write also fails
      have hupf : env.updFailed = false := by
        cases henv : env.updFailed
        · rfl
        · exact absurd henv hup
      have hrun : runCompetitiveAnalysis env r0 =
          ⟨st.statesRev.reverse, st.record, st.saved, true, true⟩ := by
        unfold runCompetitiveAnalysis
        rw [hexec]
        dsimp only
        rw [if_neg hup]
      have hlist : (runStates env r0).map AnalysisRecord.status =
          Status.pending :: (lc.reverse.map AnalysisRecord.status ++
            la.reverse.map AnalysisRecord.status) := by
        unfold runStates
        rw [hrun]
        show r0.status :: (st.statesRev.reverse.map AnalysisRecord.status) = _
        rw [h0, hrev]
        simp [List.reverse_append]
      have hpath : statusPath env r0 =
          Status.pending ::
            ((if lc.reverse.map AnalysisRecord.status = [] then []
              else [Status.collecting]) ++
             (if la.reverse.map AnalysisRecord.status = [] then []
              else [Status.analyzing])) := by
        unfold statusPath
        rw [hlist, dedup_pca_notail _ _ hC hA]
      refine ⟨?_, ?_, ?_, ?_, ?_⟩
      · intro ht
        rw [hrun] at ht
        simp at ht
      · intro _ hf
        rw [hupf] at hf
        cases hf
      · intro _ _
        refine ⟨by rw [hrun]; exact hncomp, by rw [hrun]; exact hcnone, ?_⟩
        rw [hpath]
        by_cases hc : lc.reverse.map AnalysisRecord.status = []
        · have ha : la.reverse.map AnalysisRecord.status = [] := by
            by_contra ha
            exact (hCA ha) hc
          rw [if_pos hc, if_pos ha]
          simp
        · by_cases ha : la.reverse.map AnalysisRecord.status = []
          · rw [if_neg hc, if_pos ha]
            simp
          · rw [if_neg hc, if_neg ha]
            simp
      · intro r hr
        unfold runStates at hr
        rw [hrun] at hr
        rcases List.mem_cons.mp hr with rfl | hr2
        · rw [hc0, h0]
          simp
        · have hr3 : r ∈ st.statesRev := List.mem_reverse.mp (by simpa using hr2)
          rw [hrev] at hr3
          rcases List.mem_append.mp hr3 with hr5 | hr5
          · have := hla r hr5
            rw [this.1, this.2]
            simp
          · have := hlc r hr5
            rw [this.1, this.2]
            simp
      · intro _
        rw [hrun]

lemma fanOut_length (subs : ℕ → CompSub) (comps : List DiscoveredComp) (i : ℕ) :
    (fanOut subs comps i).length = comps.length := by
  induction comps generalizing i with
  | nil => rfl
  | cons c rest ih => simp [fanOut, ih]

lemma fanOut_get? (subs : ℕ → CompSub) (comps : List DiscoveredComp) (i j : ℕ) :
    (fanOut subs comps i).get? j =
      (comps.get? j).map (fun c => processCompetitor c (subs (i + j))) := by
  induction comps generalizing i j with
  | nil => simp [fanOut]
  | cons c rest ih =>
    cases j with
    | zero => simp [fanOut]
    | succ j2 =>
      simp only [fanOut, List.get?]
      rw [ih (i + 1) j2]
      have : i + 1 + j2 = i + (j2 + 1) := by omega
      rw [this]

lemma fanOut_isolated (subs subs' : ℕ → CompSub) (j : ℕ)
    (hagree : ∀ k, k ≠ j → subs k = subs' k) (comps : List DiscoveredComp)
    (i : ℕ) (hij : i ≠ j) :
    (fanOut subs comps 0).get? i = (fanOut subs' comps 0).get? i := by
  rw [fanOut_get?, fanOut_get?]
  rw [Nat.zero_add, hagree i hij]

lemma processCompetitor_failed (comp : DiscoveredComp) :
    (processCompetitor comp ⟨.error (), .error ()⟩).name = comp.name ∧
    (processCompetitor comp ⟨.error (), .error ()⟩).url = jsOrNull comp.website ∧
    (processCompetitor comp ⟨.error (), .error ()⟩).seoScore = none ∧
    (processCompetitor comp ⟨.error (), .error ()⟩).metaTitle = none ∧
    (processCompetitor comp ⟨.error (), .error ()⟩).metaDescription = none ∧
    (processCompetitor comp ⟨.error (), .error ()⟩).contentWordCount = none ∧
    (processCompetitor comp ⟨.error (), .error ()⟩).topKeywords = none ∧
    (processCompetitor comp ⟨.error (), .error ()⟩).employeeCount = none ∧
    (processCompetitor comp ⟨.error (), .error ()⟩).fundingInfo = none ∧
    (processCompetitor comp ⟨.error (), .error ()⟩).techStack = none ∧
    (processCompetitor comp ⟨.error (), .error ()⟩).recentNews = none := by
  unfold processCompetitor
  by_cases hw : jsTruthy comp.website = true <;>
    simp [hw, fallbackEnrichment]

lemma processCompetitor_score_spec (comp : DiscoveredComp) (sub : CompSub) :
    (processCompetitor comp sub).threatLevel =
      getThreatLevel (processCompetitor comp sub).competitiveScore ∧
    (processCompetitor comp sub).competitiveScore =
      specCompetitiveScore
        ((processCompetitor comp sub).seoScore.map (fun n => (n : ℚ)))
        (processCompetitor comp sub).googleRating
        ((processCompetitor comp sub).googleReviewCount.map (fun n => (n : ℚ)))
        (jsTruthy (processCompetitor comp sub).url) := by
  constructor
  · rfl
  · exact calculateCompetitiveScore_eq_spec _

/-- C1: for every competitor record produced by the pipeline,
`competitiveScore` equals the clamped rounded sum
`50 + min(seo/2,25) + (rating-3)*10 + min(reviews/10,15) + 5·website`
(each contribution 0 when its input is absent) and `threatLevel` is the
75/50 threshold bucket of that score; for seoScore 80, rating 4.5,
reviewCount 200 and a website the score is 100, and with all four inputs
absent the score is exactly 50 with threat level medium. -/
theorem claim_c1_competitive_score :
    (∀ c : CompetitorData, calculateCompetitiveScore c =
        specCompetitiveScore c.seoScore c.googleRating c.googleReviewCount (jsTruthy c.url)) ∧
    (∀ (comp : DiscoveredComp) (sub : CompSub),
        (processCompetitor comp sub).competitiveScore =
          specCompetitiveScore
            ((processCompetitor comp sub).seoScore.map (fun n => (n : ℚ)))
            (processCompetitor comp sub).googleRating
            ((processCompetitor comp sub).googleReviewCount.map (fun n => (n : ℚ)))
            (jsTruthy (processCompetitor comp sub).url) ∧
        (processCompetitor comp sub).threatLevel =
          getThreatLevel (processCompetitor comp sub).competitiveScore) ∧
    (∀ s : ℤ, (getThreatLevel s = .high ↔ 75 ≤ s) ∧
        (getThreatLevel s = .medium ↔ 50 ≤ s ∧ s < 75) ∧
        (getThreatLevel s = .low ↔ s < 50)) ∧
    calculateCompetitiveScore ⟨some 80, some (9 / 2 : ℚ), some 200, some "site"⟩ = 100 ∧
    calculateCompetitiveScore ⟨none, none, none, none⟩ = 50 ∧
    getThreatLevel (calculateCompetitiveScore ⟨none, none, none, none⟩) = .medium := by
  refine ⟨calculateCompetitiveScore_eq_spec, ?_, ?_, ?_, ?_, ?_⟩
  · intro comp sub
    exact ⟨(processCompetitor_score_spec comp sub).2, (processCompetitor_score_spec comp sub).1⟩
  · intro s
    refine ⟨?_, ?_, ?_⟩ <;> unfold getThreatLevel <;> split_ifs with h1 h2 <;>
      simp_all <;> omega
  · have hsite : jsTruthy (some "site") = true := by decide
    show max 0 (min 100 (jsRound _)) = 100
    norm_num [jsRound, hsite, min_def, max_def]
  · have hnone : jsTruthy none = false := rfl
    show max 0 (min 100 (jsRound _)) = 50
    norm_num [jsRound, hnone, min_def, max_def]
  · have hnone : jsTruthy none = false := rfl
    have h50 : calculateCompetitiveScore ⟨none, none, none, none⟩ = 50 := by
      show max 0 (min 100 (jsRound _)) = 50
      norm_num [jsRound, hnone, min_def, max_def]
    rw [h50]
    decide

/-- A concrete degenerate page: well-sized title and description, exactly
one H1, three H2s and 1200 body words, but the body is one stop-short
word repeated, so keyword extraction finds nothing. -/
def degenerateSEOResult : SEOResult :=
  { metaTitle := some (strOfLen 45)
    metaDescription := some (strOfLen 140)
    h1 := ["heading"]
    h2 := ["first", "second", "third"]
    h3 := []
    wordCount := degeneratePageWords.length
    topKeywords := extractTopKeywords degeneratePageWords }

/-- C5 counterexample: a page with a 45-character title, a 140-character
description, exactly one H1, three H2s and 1,200 body words (each longer
than 2 characters, so all 1,200 count) scores 90, not the claimed maximum
of 100, because keyword extraction found fewer than 8 keywords. -/
theorem claim_c5_counterexample :
    (strOfLen 45).length = 45 ∧ (strOfLen 140).length = 140 ∧
    degenerateSEOResult.h1.length = 1 ∧ degenerateSEOResult.h2.length = 3 ∧
    degenerateSEOResult.wordCount = 1200 ∧
    degeneratePageWords.length = 1200 ∧
    (degeneratePageWords.all (fun w => 2 < w.length)) = true ∧
    calculateSEOScore degenerateSEOResult = 90 ∧
    calculateSEOScore degenerateSEOResult ≠ 100 := by
  have hres : degenerateSEOResult =
      { metaTitle := some (strOfLen 45), metaDescription := some (strOfLen 140),
        h1 := ["heading"], h2 := ["first", "second", "third"], h3 := [],
        wordCount := 1200, topKeywords := [] } := by
    unfold degenerateSEOResult
    rw [degenerate_keywords_empty]
    unfold degeneratePageWords
    rw [List.length_replicate]
  have hwords : (degeneratePageWords.all (fun w => 2 < w.length)) = true := by
    unfold degeneratePageWords
    rw [List.all_eq_true]
    intro x hx
    have : x = "the" := by simpa using List.eq_of_mem_replicate hx
    subst this
    decide
  refine ⟨by decide, by decide, rfl, rfl, by rw [hres],
    by unfold degeneratePageWords; rw [List.length_replicate], hwords, ?_, ?_⟩
  · rw [hres]
    decide
  · rw [hres]
    decide

/-- C5 (amended): the SEO score is the 100-capped sum of six checks with
the stated fixed thresholds (title 30-60 worth 20, description 120-160
worth 20, exactly one H1 worth 15, at least two H2s worth 15, content
tiers at 300/500/1000 words worth up to 20, keyword diversity worth up to
10); a page with a 45-character title, a 140-character description,
exactly one H1, three H2s and 1,200 words scores the maximum 100 when
keyword extraction found at least 8 top keywords, and at least 90
otherwise; title boundary lengths 29/30/60/61 score 15/20/20/15. -/
theorem claim_c5_amended :
    (∀ r : SEOResult, calculateSEOScore r =
        min 100 (titleCheckPoints r + descriptionCheckPoints r + h1CheckPoints r +
          h2CheckPoints r + contentCheckPoints r + keywordCheckPoints r)) ∧
    (∀ r t, r.metaTitle = some t → 30 ≤ t.length → t.length ≤ 60 →
       titleCheckPoints r = 20) ∧
    (∀ r d, r.metaDescription = some d → 120 ≤ d.length → d.length ≤ 160 →
       descriptionCheckPoints r = 20) ∧
    (∀ r, r.h1.length = 1 → h1CheckPoints r = 15) ∧
    (∀ r, 2 ≤ r.h2.length → h2CheckPoints r = 15) ∧
    (∀ r, 1000 ≤ r.wordCount → contentCheckPoints r = 20) ∧
    (∀ r, 8 ≤ r.topKeywords.length → keywordCheckPoints r = 10) ∧
    (∀ r t d, r.metaTitle = some t → t.length = 45 → r.metaDescription = some d →
       d.length = 140 → r.h1.length = 1 → r.h2.length = 3 → r.wordCount = 1200 →
       8 ≤ r.topKeywords.length → calculateSEOScore r = 100) ∧
    (∀ r t d, r.metaTitle = some t → t.length = 45 → r.metaDescription = some d →
       d.length = 140 → r.h1.length = 1 → r.h2.length = 3 → r.wordCount = 1200 →
       90 ≤ calculateSEOScore r ∧ calculateSEOScore r ≤ 100) ∧
    (∀ r t, r.metaTitle = some t → t.length = 29 → titleCheckPoints r = 15) ∧
    (∀ r t, r.metaTitle = some t → t.length = 30 → titleCheckPoints r = 20) ∧
    (∀ r t, r.metaTitle = some t → t.length = 60 → titleCheckPoints r = 20) ∧
    (∀ r t, r.metaTitle = some t → t.length = 61 → titleCheckPoints r = 15) := by
  have htitle20 : ∀ (r : SEOResult) t, r.metaTitle = some t → 30 ≤ t.length →
      t.length ≤ 60 → titleCheckPoints r = 20 := by
    intro r t ht h1 h2
    have hne : t ≠ "" := by
      intro h
      subst h
      simp [String.length] at h1
    unfold titleCheckPoints
    rw [ht]
    simp [hne, h1, h2]
  have hdesc20 : ∀ (r : SEOResult) d, r.metaDescription = some d → 120 ≤ d.length →
      d.length ≤ 160 → descriptionCheckPoints r = 20 := by
    intro r d hd h1 h2
    have hne : d ≠ "" := by
      intro h
      subst h
      simp [String.length] at h1
    unfold descriptionCheckPoints
    rw [hd]
    simp [hne, h1, h2]
  have hh1 : ∀ r : SEOResult, r.h1.length = 1 → h1CheckPoints r = 15 := by
    intro r h
    unfold h1CheckPoints
    rw [h]
    rfl
  have hh2 : ∀ r : SEOResult, 2 ≤ r.h2.length → h2CheckPoints r = 15 := by
    intro r h
    unfold h2CheckPoints
    rw [if_pos h]
  have hcontent : ∀ r : SEOResult, 1000 ≤ r.wordCount → contentCheckPoints r = 20 := by
    intro r h
    unfold contentCheckPoints
    rw [if_pos h]
  have hkw : ∀ r : SEOResult, 8 ≤ r.topKeywords.length → keywordCheckPoints r = 10 := by
    intro r h
    unfold keywordCheckPoints
    rw [if_pos h]
  have hkw_le : ∀ r : SEOResult, keywordCheckPoints r ≤ 10 := by
    intro r
    unfold keywordCheckPoints
    split_ifs <;> omega
  refine ⟨calculateSEOScore_six_checks, htitle20, hdesc20, hh1, hh2, hcontent, hkw,
    ?_, ?_, ?_, ?_, ?_, ?_⟩
  · intro r t d ht hlt hd hld hh1l hh2l hwc hkwl
    rw [calculateSEOScore_six_checks]
    rw [htitle20 r t ht (by omega) (by omega), hdesc20 r d hd (by omega) (by omega),
      hh1 r hh1l, hh2 r (by omega), hcontent r (by omega), hkw r hkwl]
    rfl
  · intro r t d ht hlt hd hld hh1l hh2l hwc
    rw [calculateSEOScore_six_checks]
    rw [htitle20 r t ht (by omega) (by omega), hdesc20 r d hd (by omega) (by omega),
      hh1 r hh1l, hh2 r (by omega), hcontent r (by omega)]
    have := hkw_le r
    omega
  · intro r t ht hl
    have hne : t ≠ "" := by
      intro h
      subst h
      simp [String.length] at hl
    unfold titleCheckPoints
    rw [ht]
    simp [hne]
    omega
  · intro r t ht hl
    exact htitle20 r t ht (by omega) (by omega)
  · intro r t ht hl
    exact htitle20 r t ht (by omega) (by omega)
  · intro r t ht hl
    have hne : t ≠ "" := by
      intro h
      subst h
      simp [String.length] at hl
    unfold titleCheckPoints
    rw [ht]
    simp [hne]
    omega

/-- A concrete full-profile page whose keyword extraction found 8 keywords. -/
def maxSEOResult : SEOResult :=
  { metaTitle := some (strOfLen 45)
    metaDescription := some (strOfLen 140)
    h1 := ["only"]
    h2 := ["one", "two", "three"]
    h3 := []
    wordCount := 1200
    topKeywords := ["alpha", "bravo", "charlie", "delta", "echo", "foxtrot", "golf", "hotel"] }

/-- C5 witness: the amended maximum-score statement evaluated on a
concrete full-profile page with 8 extracted keywords. -/
theorem claim_c5_amended_witness : calculateSEOScore maxSEOResult = 100 :=
  claim_c5_amended.2.2.2.2.2.2.2.1 maxSEOResult (strOfLen 45) (strOfLen 140)
    rfl (by decide) rfl (by decide) rfl rfl rfl (by decide)

/-- C6: competitor discovery returns at most 5 candidates, in the order
of the underlying place search (the output is exactly the kept prefix of
the filtered results, with no re-ranking); no returned candidate is a
case-insensitive substring match of the target name in either direction,
nor matches the fixed directory block-list; a target named Joes Coffee
filters out a candidate named Joes Coffee Downtown. -/
theorem claim_c6_discovery_filter :
    (∀ (g : Option (ℚ × ℚ)) name results,
       (discoverCompetitors g name results).length ≤ 5) ∧
    (∀ (g : Option (ℚ × ℚ)) name results,
       (discoverCompetitors g name results).all (keepPlace (lowerStr name)) = true) ∧
    (∀ (g : Option (ℚ × ℚ)) name results, g.isSome = true →
       discoverCompetitors g name results =
         (results.filter (keepPlace (lowerStr name))).take 5) ∧
    (∀ name results, discoverCompetitors none name results = []) ∧
    isSelfMatch (lowerStr "Joe\x27s Coffee") "Joe\x27s Coffee Downtown" = true ∧
    discoverCompetitors (some (0, 0)) "Joe\x27s Coffee"
      [⟨"Joe\x27s Coffee Downtown", "p1", none, none⟩, ⟨"Bean Scene", "p2", none, none⟩] =
      [⟨"Bean Scene", "p2", none, none⟩] := by
  have hfil : ∀ (g : Option (ℚ × ℚ)) name results, g.isSome = true →
      discoverCompetitors g name results =
        (results.filter (keepPlace (lowerStr name))).take 5 := by
    intro g name results hg
    cases g with
    | none => simp at hg
    | some c => exact searchNearbyPlaces_eq_filter_take name results
  refine ⟨?_, ?_, hfil, fun _ _ => rfl, by decide, ?_⟩
  · intro g name results
    cases g with
    | none => simp [discoverCompetitors]
    | some c =>
      rw [hfil (some c) name results rfl]
      exact List.length_take_le 5 _
  · intro g name results
    cases g with
    | none => simp [discoverCompetitors]
    | some c =>
      rw [hfil (some c) name results rfl, List.all_eq_true]
      intro p hp
      have hp2 : p ∈ results.filter (keepPlace (lowerStr name)) :=
        List.mem_of_mem_take hp
      exact (List.mem_filter.mp hp2).2
  · decide

/-- C6 witness: the filter-and-cap characterization evaluated on a
concrete geocoded search. -/
theorem claim_c6_witness :
    discoverCompetitors (some ((0 : ℚ), (0 : ℚ))) "Joe\x27s Coffee"
      [⟨"Joe\x27s Coffee Downtown", "p1", none, none⟩, ⟨"Bean Scene", "p2", none, none⟩] =
      (([⟨"Joe\x27s Coffee Downtown", "p1", none, none⟩,
         ⟨"Bean Scene", "p2", none, none⟩] : List Place).filter
        (keepPlace (lowerStr "Joe\x27s Coffee"))).take 5 :=
  claim_c6_discovery_filter.2.2.1 (some (0, 0)) "Joe\x27s Coffee" _ rfl

lemma effectiveIndustry_some (ind : Option String) (t : String) :
    effectiveIndustry ind (some t) =
      if (t != "") && !(isGenericType t) then
        (if jsTruthy ind then ind else some t)
      else ind := rfl

/-- C7: the effective industry used for competitor discovery is the
caller-supplied industry when present; otherwise the detected primary
category, but only when that category is not one of the fixed generic
labels; a generic category never fills an absent industry, and a detected
category never overwrites a caller-supplied one. -/
theorem claim_c7_effective_industry :
    (∀ ind pt, jsTruthy ind = true → effectiveIndustry ind pt = ind) ∧
    (∀ t, isGenericType t = true → effectiveIndustry none (some t) = none) ∧
    (∀ t, t ≠ "" → isGenericType t = false → effectiveIndustry none (some t) = some t) ∧
    (∀ ind, effectiveIndustry ind none = ind) ∧
    isGenericType "point of interest" = true ∧
    isGenericType "point_of_interest" = true ∧
    isGenericType "establishment" = true ∧
    isGenericType "premise" = true ∧
    isGenericType "Establishment" = true ∧
    isGenericType "coffee shop" = false := by
  refine ⟨?_, ?_, ?_, fun _ => rfl, by decide, by decide, by decide, by decide,
    by decide, by decide⟩
  · intro ind pt hind
    cases pt with
    | none => rfl
    | some t =>
      rw [effectiveIndustry_some, hind]
      split <;> rfl
  · intro t hg
    rw [effectiveIndustry_some, hg]
    simp
  · intro t hne hg
    rw [effectiveIndustry_some, hg]
    have ht : (t != "") = true := by simpa using hne
    rw [ht]
    rfl

/-- C7 witness: the caller-supplied industry survives a detected
category, and a generic category does not fill an absent industry. -/
theorem claim_c7_witness :
    effectiveIndustry (some "cafe") (some "restaurant") = some "cafe" ∧
    effectiveIndustry none (some "point_of_interest") = none ∧
    effectiveIndustry none (some "restaurant") = some "restaurant" :=
  ⟨claim_c7_effective_industry.1 (some "cafe") (some "restaurant") (by decide),
   claim_c7_effective_industry.2.1 "point_of_interest" (by decide),
   claim_c7_effective_industry.2.2.1 "restaurant" (by decide) (by decide)⟩

/-- C9: `deleteAnalysis(id, userId)` deletes every competitor row of the
analysis unconditionally, before the ownership check on the analysis row;
when the analysis exists but belongs to a different user the call returns
false and leaves the analysis row intact, yet the competitor rows are
gone. -/
theorem claim_c9_delete_analysis :
    (∀ s id uid, ∀ c ∈ (deleteAnalysis s id uid).1.competitors, c.analysisId ≠ id) ∧
    (∀ s id uid c, c ∈ s.competitors → c.analysisId ≠ id →
       c ∈ (deleteAnalysis s id uid).1.competitors) ∧
    (∀ s id uid, (∀ a ∈ s.analyses, a.id = id → a.userId ≠ uid) →
       (deleteAnalysis s id uid).2 = false ∧
       (deleteAnalysis s id uid).1.analyses = s.analyses ∧
       (∀ c ∈ s.competitors, c.analysisId = id →
          c ∉ (deleteAnalysis s id uid).1.competitors)) := by
  refine ⟨?_, ?_, ?_⟩
  · intro s id uid c hc
    have := (List.mem_filter.mp hc).2
    simpa using this
  · intro s id uid c hc hne
    unfold deleteAnalysis
    refine List.mem_filter.mpr ⟨hc, ?_⟩
    simpa using hne
  · intro s id uid hown
    have haff : s.analyses.filter (fun a => (a.id == id) && (a.userId == uid)) = [] := by
      rw [List.filter_eq_nil]
      intro a ha
      simp only [Bool.and_eq_true, beq_iff_eq, not_and]
      intro h1
      exact hown a ha h1
    refine ⟨?_, ?_, ?_⟩
    · unfold deleteAnalysis
      rw [haff]
      rfl
    · unfold deleteAnalysis
      rw [List.filter_eq_self]
      intro a ha
      simp only [Bool.not_eq_true']
      by_cases h1 : a.id = id
      · by_cases h2 : a.userId = uid
        · exact absurd h2 (hown a ha h1)
        · simp [h2]
      · simp [h1]
    · intro c hc hcid hmem
      have := (List.mem_filter.mp hmem).2
      simp [hcid] at this

/-- C9 witness: a concrete database where analysis 1 belongs to user 2;
deleting it as user 3 returns false, keeps the analysis row, and still
removes the competitor rows of analysis 1. -/
theorem claim_c9_witness :
    (deleteAnalysis ⟨[⟨1, 2⟩], [⟨1, "rival"⟩, ⟨4, "other"⟩]⟩ 1 3).2 = false ∧
    (deleteAnalysis ⟨[⟨1, 2⟩], [⟨1, "rival"⟩, ⟨4, "other"⟩]⟩ 1 3).1.analyses = [⟨1, 2⟩] := by
  have h := claim_c9_delete_analysis.2.2 ⟨[⟨1, 2⟩], [⟨1, "rival"⟩, ⟨4, "other"⟩]⟩ 1 3
    (by decide)
  exact ⟨h.1, h.2.1⟩

/-- C10: starting closed, the breaker opens exactly when the recorded
failure count reaches the threshold; while open and within `resetTimeout`
of the last failure, `execute` rejects without invoking the wrapped
function and leaves the breaker unchanged; after `resetTimeout` the call
runs (half-open), and a half-open success resets the failure count to 0
and closes the breaker. -/
theorem claim_c10_circuit_breaker :
    (∀ t rt, (mkCircuitBreaker t rt).state = .closed ∧
       (mkCircuitBreaker t rt).failures = 0) ∧
    (∀ (cb : CircuitBreaker) now, cb.state = .closed →
       ((cb.execute now false).1.state = .opened ↔ cb.threshold ≤ cb.failures + 1) ∧
       (cb.execute now false).1.failures = cb.failures + 1 ∧
       (cb.execute now false).1.lastFailureTime = now ∧
       (cb.execute now false).2 = .failure) ∧
    (∀ (cb : CircuitBreaker) now b, cb.state = .opened →
       now - cb.lastFailureTime < cb.resetTimeout →
       cb.execute now b = (cb, .rejected)) ∧
    (∀ (cb : CircuitBreaker) now, cb.state = .opened →
       cb.resetTimeout ≤ now - cb.lastFailureTime →
       cb.execute now true = ({ cb with state := .closed, failures := 0 }, .success)) ∧
    (∀ (cb : CircuitBreaker) now b, cb.state = .opened →
       cb.resetTimeout ≤ now - cb.lastFailureTime →
       (cb.execute now b).2 ≠ .rejected) := by
  refine ⟨fun t rt => ⟨rfl, rfl⟩, ?_, ?_, ?_, ?_⟩
  · intro cb now hclosed
    simp [CircuitBreaker.execute, hclosed]
  · intro cb now b hopen hlt
    simp [CircuitBreaker.execute, hopen, hlt]
  · intro cb now hopen hge
    simp [CircuitBreaker.execute, hopen]
    omega
  · intro cb now b hopen hge
    have hnlt : ¬(now - cb.lastFailureTime < cb.resetTimeout) := by omega
    cases b <;> simp [CircuitBreaker.execute, hopen, hnlt]

/-- C10 witness: a breaker evaluated through a failure from closed, a
rejection while open, and a half-open success after the reset window. -/
theorem claim_c10_witness :
    ((mkCircuitBreaker 2 30).execute 10 false).1.failures = 1 ∧
    ((⟨5, 100, .opened, 5, 30⟩ : CircuitBreaker).execute 110 true =
      (⟨5, 100, .opened, 5, 30⟩, .rejected)) ∧
    ((⟨5, 100, .opened, 5, 30⟩ : CircuitBreaker).execute 140 true =
      ({ (⟨5, 100, .opened, 5, 30⟩ : CircuitBreaker) with
          state := .closed, failures := 0 }, .success)) :=
  ⟨(claim_c10_circuit_breaker.2.1 (mkCircuitBreaker 2 30) 10 rfl).2.1,
   claim_c10_circuit_breaker.2.2.1 ⟨5, 100, .opened, 5, 30⟩ 110 true rfl (by norm_num),
   claim_c10_circuit_breaker.2.2.2.1 ⟨5, 100, .opened, 5, 30⟩ 140 rfl (by norm_num)⟩

/-- C2: in the per-competitor fan-out, a failing SEO or enrichment
sub-call is caught locally and turned into absent fields for that
competitor only; with the database operations succeeding, every
competitor of the (at most 5) discovered ones is finalized and saved with
its own data regardless of sub-call failures, and the analysis completes
rather than failing. -/
theorem claim_c2_fanout_isolation (env : PipelineEnv) (r0 : AnalysisRecord)
    (hdb : dbOk env = true) :
    ((runCompetitiveAnalysis env r0).threw = false ∧
     (runCompetitiveAnalysis env r0).finalRecord.status = .completed ∧
     (runCompetitiveAnalysis env r0).saved = fanOut env.subs (env.discovered.take 5) 0 ∧
     (runCompetitiveAnalysis env r0).saved.length = (env.discovered.take 5).length ∧
     (env.discovered.take 5).length ≤ 5) ∧
    (∀ (subs subs' : ℕ → CompSub) (j : ℕ), (∀ k, k ≠ j → subs k = subs' k) →
       ∀ comps i, i ≠ j →
         (fanOut subs comps 0).get? i = (fanOut subs' comps 0).get? i) ∧
    (∀ (subs : ℕ → CompSub) comps i, (fanOut subs comps 0).get? i =
       (comps.get? i).map (fun c => processCompetitor c (subs i))) ∧
    (∀ comp : DiscoveredComp,
       (processCompetitor comp ⟨.error (), .error ()⟩).name = comp.name ∧
       (processCompetitor comp ⟨.error (), .error ()⟩).seoScore = none ∧
       (processCompetitor comp ⟨.error (), .error ()⟩).metaTitle = none ∧
       (processCompetitor comp ⟨.error (), .error ()⟩).metaDescription = none ∧
       (processCompetitor comp ⟨.error (), .error ()⟩).contentWordCount = none ∧
       (processCompetitor comp ⟨.error (), .error ()⟩).topKeywords = none ∧
       (processCompetitor comp ⟨.error (), .error ()⟩).employeeCount = none ∧
       (processCompetitor comp ⟨.error (), .error ()⟩).fundingInfo = none ∧
       (processCompetitor comp ⟨.error (), .error ()⟩).techStack = none ∧
       (processCompetitor comp ⟨.error (), .error ()⟩).recentNews = none) := by
  refine ⟨?_, ?_, ?_, ?_⟩
  · obtain ⟨h1, h2, h3, h4⟩ := run_allOk env r0 hdb
    refine ⟨h1, h2, h4, ?_, ?_⟩
    · rw [h4, fanOut_length]
    · exact List.length_take_le 5 _
  · intro subs subs' j hagree comps i hij
    exact fanOut_isolated subs subs' j hagree comps i hij
  · intro subs comps i
    rw [fanOut_get?, Nat.zero_add]
  · intro comp
    obtain ⟨ha, hb, hc, hd, he, hf, hg, hh, hi, hj, hk⟩ := processCompetitor_failed comp
    exact ⟨ha, hc, hd, he, hf, hg, hh, hi, hj, hk⟩

/-- A fixed environment where every database operation succeeds, no
competitor is discovered, and both per-competitor sub-calls fail. -/
def envAllOk : PipelineEnv :=
  { updCollecting := true
    getAnalysis1 := true
    seoTarget := ⟨none, none, [], [], [], 0, []⟩
    updSeo := true
    presence := ⟨false, none, none, none⟩
    updPresence := true
    updIndustry := true
    discovered := []
    subs := fun _ => ⟨.error (), .error ()⟩
    createCompetitorsOk := true
    updAnalyzing := true
    getAnalysis2 := true
    getCompetitorsOk := true
    aiInsights := ⟨"overall", none⟩
    updInsights := true
    getAnalysis3 := true
    blogPost := "blog"
    adCopy := []
    updBlog := true
    updAdCopy := true
    updCompleted := true
    updFailed := true
    now := 7 }

/-- The environment in which the very first status write (to
`collecting`) throws and the failure-handler write succeeds. -/
def envFirstWriteFails : PipelineEnv := { envAllOk with updCollecting := false }

/-- The environment in which the `analyzing` status write throws and the
failure-handler write also throws. -/
def envAnalyzingFails : PipelineEnv :=
  { envAllOk with updAnalyzing := false, updFailed := false }

/-- A concrete freshly created analysis record. -/
def sampleRecord : AnalysisRecord := createAnalysis ⟨"Acme", none, "Springfield", none⟩

/-- C2 witness: the fan-out conclusions evaluated in the all-succeeding
environment on the concrete record. -/
theorem claim_c2_witness :
    (runCompetitiveAnalysis envAllOk sampleRecord).threw = false ∧
    (runCompetitiveAnalysis envAllOk sampleRecord).finalRecord.status = .completed :=
  ⟨(claim_c2_fanout_isolation envAllOk sampleRecord (by decide)).1.1,
   (claim_c2_fanout_isolation envAllOk sampleRecord (by decide)).1.2.1⟩

/-- The transition relation asserted by the claim: forward along
pending-collecting-analyzing-completed, with failed reachable only from
collecting or analyzing. -/
def claimStatusStep (s t : Status) : Prop :=
  (s = .pending ∧ t = .collecting) ∨ (s = .collecting ∧ t = .analyzing) ∨
  (s = .analyzing ∧ t = .completed) ∨
  ((s = .collecting ∨ s = .analyzing) ∧ t = .failed)

instance (s t : Status) : Decidable (claimStatusStep s t) := by
  unfold claimStatusStep
  infer_instance

/-- C3 counterexample: when the very first status write (to `collecting`)
throws and the failure-handler write succeeds, the stored status moves
directly from `pending` to `failed`, a transition the claim does not
allow. -/
theorem claim_c3_counterexample :
    statusPath envFirstWriteFails sampleRecord = [Status.pending, Status.failed] ∧
    ¬ claimStatusStep Status.pending Status.failed := by
  exact ⟨by decide, by decide⟩

/-- C3 (amended): over one execution started on a `pending` record, the
stored status follows one of the forward paths
pending-collecting-analyzing-completed (the full path exactly when the
run does not throw), or stops early, or ends in `failed` from `pending`,
`collecting` or `analyzing` — where the `pending` to `failed` step occurs
only when the very first status write itself fails; the status never
moves backward and never skips `collecting` or `analyzing` on the success
path. -/
theorem claim_c3_amended (env : PipelineEnv) (r0 : AnalysisRecord)
    (h0 : r0.status = .pending) (hc0 : r0.completedAt = none) :
    statusPath env r0 ∈ [[Status.pending],
      [Status.pending, Status.collecting],
      [Status.pending, Status.collecting, Status.analyzing],
      [Status.pending, Status.collecting, Status.analyzing, Status.completed],
      [Status.pending, Status.failed],
      [Status.pending, Status.collecting, Status.failed],
      [Status.pending, Status.collecting, Status.analyzing, Status.failed]] ∧
    ((runCompetitiveAnalysis env r0).threw = false →
      statusPath env r0 =
        [Status.pending, Status.collecting, Status.analyzing, Status.completed]) ∧
    (statusPath env r0 = [Status.pending, Status.failed] →
      env.updCollecting = false) := by
  have hm := run_master env r0 h0 hc0
  cases ht : (runCompetitiveAnalysis env r0).threw with
  | false =>
    have hfull := (hm.1 ht).1
    refine ⟨?_, fun _ => hfull, ?_⟩
    · rw [hfull]; simp
    · intro hpf
      rw [hfull] at hpf
      exact absurd hpf (by decide)
  | true =>
    cases hf : env.updFailed with
    | true =>
      obtain ⟨hfs, hmem, hflag⟩ := hm.2.1 ht hf
      simp only [List.mem_cons, List.not_mem_nil, or_false] at hmem
      refine ⟨?_, ?_, hflag⟩
      · rcases hmem with h | h | h
        · rw [h]; simp
        · rw [h]; simp
        · rw [h]; simp
      · intro habs
        exact absurd habs (by simp)
    | false =>
      obtain ⟨hns, hcn, hmem⟩ := hm.2.2.1 ht hf
      simp only [List.mem_cons, List.not_mem_nil, or_false] at hmem
      refine ⟨?_, ?_, ?_⟩
      · rcases hmem with h | h | h
        · rw [h]; simp
        · rw [h]; simp
        · rw [h]; simp
      · intro habs
        exact absurd habs (by simp)
      · intro hpf
        rcases hmem with h | h | h
        · rw [h] at hpf; exact absurd hpf (by decide)
        · rw [h] at hpf; exact absurd hpf (by decide)
        · rw [h] at hpf; exact absurd hpf (by decide)

/-- C3 witness: in the all-succeeding environment the concrete record
walks the full forward path. -/
theorem claim_c3_witness :
    statusPath envAllOk sampleRecord =
      [Status.pending, Status.collecting, Status.analyzing, Status.completed] :=
  (claim_c3_amended envAllOk sampleRecord rfl rfl).2.1 (by decide)

/-- C4 counterexample: when the `analyzing` status write throws and the
status write of the failure handler also throws, the run rethrows but the
stored status stays `collecting` — it is not set to `failed`. -/
theorem claim_c4_counterexample :
    (runCompetitiveAnalysis envAnalyzingFails sampleRecord).threw = true ∧
    (runCompetitiveAnalysis envAnalyzingFails sampleRecord).finalRecord.status =
      .collecting ∧
    (runCompetitiveAnalysis envAnalyzingFails sampleRecord).finalRecord.status ≠
      .failed := by
  exact ⟨by decide, by decide, by decide⟩

/-- C4 (amended): for every uncaught exception in a stage, the remaining
stages do not run (the record never reaches `completed` and `collecting`
is entered at most once, with no retry), the error is logged and is not
re-thrown to the caller of the create mutation (which already received an
accepted `pending` response); the status is set to `failed` provided the
status write of the failure handler itself succeeds — when that write also
throws, the record keeps its last stored status instead. -/
theorem claim_c4_amended (inp : AnalysisInput) (env : PipelineEnv) :
    (startAnalysis inp env).response = .pending ∧
    (startAnalysis inp env).callerSeesError = false ∧
    ((startAnalysis inp env).run.threw = true →
       (startAnalysis inp env).run.loggedError = true ∧
       Status.completed ∉ statusPath env (createAnalysis inp) ∧
       (env.updFailed = true →
         (startAnalysis inp env).run.finalRecord.status = .failed) ∧
       (env.updFailed = false →
         (startAnalysis inp env).run.finalRecord.status ≠ .completed ∧
         (startAnalysis inp env).run.finalRecord.completedAt = none)) ∧
    ((startAnalysis inp env).run.threw = false →
       (startAnalysis inp env).run.finalRecord.status = .completed) ∧
    ((statusPath env (createAnalysis inp)).count Status.collecting ≤ 1) := by
  have hm := run_master env (createAnalysis inp) rfl rfl
  have hrun : (startAnalysis inp env).run =
      runCompetitiveAnalysis env (createAnalysis inp) := rfl
  refine ⟨rfl, rfl, ?_, ?_, ?_⟩
  · intro ht
    rw [hrun] at ht
    refine ⟨hm.2.2.2.2 ht, ?_, ?_, ?_⟩
    · cases hf : env.updFailed with
      | true =>
        obtain ⟨_, hmem, _⟩ := hm.2.1 ht hf
        simp only [List.mem_cons, List.not_mem_nil, or_false] at hmem
        rcases hmem with h | h | h <;> rw [h] <;> decide
      | false =>
        obtain ⟨_, _, hmem⟩ := hm.2.2.1 ht hf
        simp only [List.mem_cons, List.not_mem_nil, or_false] at hmem
        rcases hmem with h | h | h <;> rw [h] <;> decide
    · intro hf
      exact (hm.2.1 ht hf).1
    · intro hf
      exact ⟨(hm.2.2.1 ht hf).1, (hm.2.2.1 ht hf).2.1⟩
  · intro ht
    rw [hrun] at ht
    exact (hm.1 ht).2.1
  · cases ht : (runCompetitiveAnalysis env (createAnalysis inp)).threw with
    | false =>
      rw [(hm.1 ht).1]
      decide
    | true =>
      cases hf : env.updFailed with
      | true =>
        obtain ⟨_, hmem, _⟩ := hm.2.1 ht hf
        simp only [List.mem_cons, List.not_mem_nil, or_false] at hmem
        rcases hmem with h | h | h <;> rw [h] <;> decide
      | false =>
        obtain ⟨_, _, hmem⟩ := hm.2.2.1 ht hf
        simp only [List.mem_cons, List.not_mem_nil, or_false] at hmem
        rcases hmem with h | h | h <;> rw [h] <;> decide

/-- C4 witness: the launch-side conclusions at a concrete input and
environment. -/
theorem claim_c4_witness :
    (startAnalysis ⟨"Acme", none, "Springfield", none⟩ envAllOk).response = .pending ∧
    (startAnalysis ⟨"Acme", none, "Springfield", none⟩ envAllOk).callerSeesError = false ∧
    (startAnalysis ⟨"Acme", none, "Springfield", none⟩ envAllOk).run.finalRecord.status =
      .completed :=
  ⟨(claim_c4_amended ⟨"Acme", none, "Springfield", none⟩ envAllOk).1,
   (claim_c4_amended ⟨"Acme", none, "Springfield", none⟩ envAllOk).2.1,
   (claim_c4_amended ⟨"Acme", none, "Springfield", none⟩ envAllOk).2.2.2.1 (by decide)⟩

/-- C8: at every point in the single-run lifecycle of an analysis record,
`completedAt` is set if and only if the status is `completed`: creation
leaves it null on a `pending` record, every stored state of the run keeps
the equivalence, the `completed` write is the only one that sets it (and
sets it together with the status), and the `failed` write never touches
it. -/
theorem claim_c8_completed_at (inp : AnalysisInput) (env : PipelineEnv) :
    (createAnalysis inp).completedAt = none ∧
    (createAnalysis inp).status = .pending ∧
    ((runStates env (createAnalysis inp)).all
      (fun r => r.completedAt.isSome == decide (r.status = Status.completed))) = true ∧
    (∀ r : AnalysisRecord, (setFailed r).completedAt = r.completedAt ∧
       (setFailed r).status = .failed) ∧
    (∀ (blog : String) (ads : List AdVariant) (now : ℕ) (r : AnalysisRecord),
       (setCompleted blog ads now r).completedAt = some now ∧
       (setCompleted blog ads now r).status = .completed) := by
  have hm := run_master env (createAnalysis inp) rfl rfl
  refine ⟨rfl, rfl, ?_, fun r => ⟨rfl, rfl⟩, fun blog ads now r => ⟨rfl, rfl⟩⟩
  rw [List.all_eq_true]
  intro r hr
  have hiff := hm.2.2.2.1 r hr
  by_cases hP : r.status = Status.completed
  · simp [hP, hiff.mpr hP]
  · have : r.completedAt.isSome = false := by
      rw [Bool.eq_false_iff]
      intro habs
      exact hP (hiff.mp habs)
    simp [hP, this]
